import Mathlib

/-!
# DMGDisk (darling-dmg): a shallow embedding of `src/DMGDisk.cpp`

Byte strings (`std::string`, `xmlChar*`, `std::vector<uint8_t>`) are lists of
byte values.  Unsigned machine arithmetic is carried out on `Nat` with the
reduction modulo `2^w` written out (`size_t` and `uint64_t`: `2^64`,
`uint8_t`: `256`).  The `int` counters of `base64Decode` hold values between
`0` and the input size; they are natural numbers here, and a comparison
against `in_len_const - 1` is written with the `1` moved to the other side.
-/

namespace DMGDisk

/-- A byte string: the contents of a `std::string`. -/
abbrev Str := List Nat

/-- The bytes of an ASCII literal. -/
def ascii (s : String) : Str := s.toList.map Char.toNat

/-! ## `std::string` primitives -/

/-- The value `std::string::npos`, that is `(size_t)-1`. -/
def npos : Nat := 2 ^ 64 - 1

/-- Subtraction of two `size_t` values. -/
def sizeSub (a b : Nat) : Nat := (a + 2 ^ 64 - b % 2 ^ 64) % 2 ^ 64

/-- The call `s.find(c, pos)`: index of the first `c` at or after `pos`, else `npos`. -/
def find (s : Str) (c : Nat) (pos : Nat) : Nat :=
  if c ∈ s.drop pos then pos + (s.drop pos).indexOf c else npos

/-- Index of the last occurrence of `c` in `s`, if there is one. -/
def rfindAux (c : Nat) : Str → Option Nat
  | [] => none
  | x :: xs =>
    match rfindAux c xs with
    | some k => some (k + 1)
    | none => if x = c then some 0 else none

/-- The call `s.rfind(c)`: index of the last `c`, else `npos`. -/
def rfind (s : Str) (c : Nat) : Nat := (rfindAux c s).getD npos

/-- The call `s.substr(pos, count)` for `pos ≤ s.size()`; `count` is clipped to the rest. -/
def substr (s : Str) (pos count : Nat) : Str := (s.drop pos).take count

/-! ## `parseNameAndType` -/

/-- The method `DMGDisk::parseNameAndType`.  `name` and `type` are the values
the two reference parameters hold on entry; the result is the return value
with the values they hold on exit. -/
def parseNameAndType (nameAndType name type : Str) : Bool × Str × Str :=
  let paren := find nameAndType 40 0
  if paren = npos then (false, name, type)
  else
    let name := substr nameAndType 0 (sizeSub paren 1)
    let colon := find nameAndType 58 paren
    if colon = npos then (false, name, type)
    else
      let type := substr nameAndType ((paren + 1) % 2 ^ 64) (sizeSub (sizeSub colon paren) 1)
      let space := rfind type 32
      if space ≠ npos ∧ space = sizeSub type.length 1 then
        (true, name, type.take (sizeSub type.length 1))
      else (true, name, type)

/-- The descriptor text `<name> (<type> : <id>)`. -/
def descriptor (n t r : Str) : Str := n ++ ascii " (" ++ t ++ ascii " : " ++ r ++ ascii ")"

/-! ## `base64Decode` -/

/-- The C-locale `isalnum` on a byte. -/
def isalnum (c : Nat) : Bool :=
  (48 ≤ c && c ≤ 57) || (65 ≤ c && c ≤ 90) || (97 ≤ c && c ≤ 122)

/-- The helper `is_base64`. -/
def is_base64 (c : Nat) : Bool := isalnum c || c == 43 || c == 47

/-- The table `base64_chars`. -/
def base64_chars : Str :=
  ascii "ABCDEFGHIJKLMNOPQRSTUVWXYZabcdefghijklmnopqrstuvwxyz0123456789+/"

/-- The assignment `char_array_4[k] = base64_chars.find(char_array_4[k])`: the
`size_t` result stored into a `uint8_t`. -/
def b64index (c : Nat) : Nat := find base64_chars c 0 % 256

/-- The three `uint8_t` values computed from the four table indices. -/
def char_array_3 (a0 a1 a2 a3 : Nat) : List Nat :=
  [ ((a0 <<< 2) + ((a1 &&& 0x30) >>> 4)) % 256,
    (((a1 &&& 0xf) <<< 4) + ((a2 &&& 0x3c) >>> 2)) % 256,
    (((a2 &&& 0x3) <<< 6) + a3) % 256 ]

/-- The inner loop `while (!is_base64(input[in_]))`, returning the final `in_`.
Each turn that does not leave the loop increments `in_` while
`in_ < in_len_const - 1`, so `in_len_const - 1 - in_` turns always suffice; at
fuel `0` we have `in_ ≥ in_len_const - 1`, where both ways out leave `in_` as it is. -/
def skipLoop (input : Str) (in_len_const : Nat) : Nat → Nat → Nat
  | 0, in_ => in_
  | fuel + 1, in_ =>
    if !is_base64 (input.getD in_ 0) then
      if in_ + 1 < in_len_const then skipLoop input in_len_const fuel (in_ + 1)
      else in_
    else in_

/-- The outer loop `while (in_len-- && (input[in_] != '='))`.  `buf` is
`char_array_4[0..i)`, so `i = buf.length`; the result is the final `buf`
and `output`. -/
def decodeLoop (input : Str) (in_len_const : Nat) :
    Nat → Nat → List Nat → List Nat → List Nat × List Nat
  | 0, _, buf, output => (buf, output)
  | in_len + 1, in_, buf, output =>
    if input.getD in_ 0 = 61 then (buf, output)
    else
      let in_ := skipLoop input in_len_const (in_len_const - 1 - in_) in_
      if in_ + 1 = in_len_const then (buf, output)
      else
        let buf := buf ++ [input.getD in_ 0]
        let in_ := in_ + 1
        if buf.length = 4 then
          decodeLoop input in_len_const in_len in_ []
            (output ++ char_array_3 (b64index (buf.getD 0 0)) (b64index (buf.getD 1 0))
              (b64index (buf.getD 2 0)) (b64index (buf.getD 3 0)))
        else decodeLoop input in_len_const in_len in_ buf output

/-- The block `if (i) { ... }` after the loop: the bytes appended for a partial group. -/
def decodeTail (buf : List Nat) : List Nat :=
  if buf.length ≠ 0 then
    let c := buf ++ List.replicate (4 - buf.length) 0
    (char_array_3 (b64index (c.getD 0 0)) (b64index (c.getD 1 0))
      (b64index (c.getD 2 0)) (b64index (c.getD 3 0))).take (buf.length - 1)
  else []

/-- The method `DMGDisk::base64Decode`: the return value and the final `output`. -/
def base64Decode (input : Str) (output : List Nat) : Bool × List Nat :=
  let r := decodeLoop input input.length input.length 0 [] output
  let output := r.2 ++ decodeTail r.1
  (decide (output.length > 0), output)

/-- Standard padded base64 encoding (RFC 4648) of a byte sequence. -/
def base64Encode : List Nat → Str
  | [] => []
  | [a] =>
    [base64_chars.getD (a / 4) 0, base64_chars.getD (a % 4 * 16) 0, 61, 61]
  | [a, b] =>
    [base64_chars.getD (a / 4) 0, base64_chars.getD (a % 4 * 16 + b / 16) 0,
     base64_chars.getD (b % 16 * 4) 0, 61]
  | a :: b :: c :: rest =>
    base64_chars.getD (a / 4) 0 :: base64_chars.getD (a % 4 * 16 + b / 16) 0 ::
      base64_chars.getD (b % 16 * 4 + c / 64) 0 :: base64_chars.getD (c % 64) 0 ::
      base64Encode rest

/-! ## Declarations of headers that are not part of the sources -/

/-- Modelled from the spec: the constants and field offsets that `DMGDisk.cpp`
takes from headers outside the sources (§3, §6): `sizeof(UDIFResourceFile)`,
`UDIF_SIGNATURE`, the offsets of `fUDIFSignature`, `fUDIFXMLOffset` and
`fUDIFXMLLength` in the trailer, and the offsets of the 64-bit fields
`firstSectorNumber` and `sectorCount` in a `BLKXTable`. -/
structure Decls where
  sizeofUDIF : Nat
  UDIF_SIGNATURE : Nat
  fUDIFSignature : Nat
  fUDIFXMLOffset : Nat
  fUDIFXMLLength : Nat
  firstSectorNumber : Nat
  sectorCount : Nat
  deriving DecidableEq

/-- The values of the UDIF format: a 512-byte trailer that starts with the
magic "koly", and the block table header `mish`. -/
def udif : Decls where
  sizeofUDIF := 512
  UDIF_SIGNATURE := 0x6B6F6C79
  fUDIFSignature := 0
  fUDIFXMLOffset := 216
  fUDIFXMLLength := 224
  firstSectorNumber := 8
  sectorCount := 16

/-- The conversion `be(x)` applied to a field held in memory as `bytes`: its big-endian value. -/
def be (bytes : List Nat) : Nat := bytes.foldl (fun acc b => acc * 256 + b) 0

/-- The big-endian bytes of `v` on `width` bytes. -/
def beBytes : Nat → Nat → List Nat
  | 0, _ => []
  | width + 1, v => beBytes width (v / 256) ++ [v % 256]

/-- The `width` bytes of a field at offset `off` of a buffer of exactly
`buf.length` bytes; `none` when the field reaches past the end of the buffer. -/
def field (buf : List Nat) (off width : Nat) : Option (List Nat) :=
  if off + width ≤ buf.length then some ((buf.drop off).take width) else none

/-! ## The byte source -/

/-- Modelled from the spec: the random-access byte source (§6), the abstract
class `Reader`.  `length` is `length()`.  `read count offset` is what
`read(buf, count, offset)` stores at the start of `buf`: `none` when the call
fails with a negative return value and stores nothing, `some d` when it
returns `d.length`. -/
structure Reader where
  length : Nat
  read : Nat → Nat → Option (List Nat)

/-- The return value of `read(buf, count, offset)`. -/
def Reader.readReturn (r : Reader) (count offset : Nat) : Int :=
  match r.read count offset with
  | none => -1
  | some d => (d.take count).length

/-- The contents of a buffer that held `buf` after `read(buf, count, offset)`. -/
def Reader.readInto (r : Reader) (buf : List Nat) (count offset : Nat) : List Nat :=
  match r.read count offset with
  | none => buf
  | some d => d.take count ++ buf.drop (d.take count).length

/-- A byte source stores nothing for an offset at or past its length. -/
def Reader.NoDataPastEnd (r : Reader) : Prop :=
  ∀ count offset, r.length ≤ offset → r.read count offset = none ∨ r.read count offset = some []

/-- A byte source over the bytes `contents`. -/
def Reader.ofBytes (contents : List Nat) : Reader where
  length := contents.length
  read := fun count offset => some ((contents.drop offset).take count)

/-! ## The constructor and `isDMG` -/

/-- The exceptions of `exceptions.h` that `DMGDisk.cpp` throws, and the
`std::bad_alloc` of a `new` expression that gets no memory. -/
inductive Error where
  | io_error (what : String)
  | function_not_implemented_error (what : String)
  | bad_alloc
  deriving DecidableEq

instance instDecidableEqExcept {ε α : Type} [DecidableEq ε] [DecidableEq α] :
    DecidableEq (Except ε α)
  | .ok a, .ok b => if h : a = b then isTrue (by rw [h]) else isFalse (fun e => h (by cases e; rfl))
  | .error a, .error b =>
    if h : a = b then isTrue (by rw [h]) else isFalse (fun e => h (by cases e; rfl))
  | .ok _, .error _ => isFalse (fun e => by cases e)
  | .error _, .ok _ => isFalse (fun e => by cases e)

/-- An execution: the calls `read(_, count, offset)` made on `m_reader`, in
order, and the value returned or the exception thrown. -/
structure Run (α : Type) where
  reads : List (Nat × Nat)
  result : Except Error α

/-- The bytes of `udif` after `m_reader->read(&udif, sizeof(udif), length - 512)`
returned `sizeof(udif)`. -/
def trailerBytes (h : Decls) (m_reader : Reader) : List Nat :=
  ((m_reader.read h.sizeofUDIF (m_reader.length - 512)).getD []).take h.sizeofUDIF

/-- The constructor `DMGDisk::DMGDisk`, with the call `loadKoly(udif)` as the
continuation `loadKoly`, which receives the bytes of `udif`. -/
def construct {α : Type} (h : Decls) (m_reader : Reader) (loadKoly : List Nat → Run α) : Run α :=
  let offset := m_reader.length
  if offset < 512 then ⟨[], .error (.io_error "File to small to be a DMG")⟩
  else
    let offset := offset - 512
    if m_reader.readReturn h.sizeofUDIF offset ≠ (h.sizeofUDIF : Int) then
      ⟨[(h.sizeofUDIF, offset)], .error (.io_error "Cannot read the KOLY block")⟩
    else
      let udif := trailerBytes h m_reader
      if be ((udif.drop h.fUDIFSignature).take 4) ≠ h.UDIF_SIGNATURE then
        ⟨[(h.sizeofUDIF, offset)], .error (.io_error "Invalid KOLY block signature")⟩
      else
        let k := loadKoly udif
        ⟨(h.sizeofUDIF, offset) :: k.reads, k.result⟩

/-- The static method `DMGDisk::isDMG`. -/
def isDMG (h : Decls) (reader : Reader) : Bool :=
  let offset := sizeSub reader.length 512
  let sig := reader.readInto [0, 0, 0, 0] 4 offset
  be sig == h.UDIF_SIGNATURE

/-! ## The metadata document -/

/-- The number the path query engine converts the text of a `string` element to,
as far as the two tests `text() >= 0` and `text() = %d` can tell: not a number, an
integer, or another value, which is never equal to an `int` and is `≥ 0` or not. -/
inductive XNumber where
  | nan
  | integer (v : Int)
  | other (nonneg : Bool)
  deriving DecidableEq

/-- The test `text() = index` on a `string` element. -/
def XNumber.equalsInt (x : XNumber) (index : Int) : Bool :=
  match x with
  | .integer v => decide (v = index)
  | _ => false

/-- The test `text() >= 0` on a `string` element. -/
def XNumber.atLeastZero (x : XNumber) : Bool :=
  match x with
  | .integer v => decide (0 ≤ v)
  | .other nonneg => nonneg
  | .nan => false

/-- A `dict` of the `blkx` array as the path queries see it.  `ID` is the
integer its "ID" string denotes (§6 has it a stringified integer).  `CFName` and `Name` are the results of the
two `string(key[text()=...]/following-sibling::string)` queries with this node
as context: `none` when `!xpathObj || !xpathObj->stringval`.  `Data` is the
text of its "Data" element, when it has one.  `laterStrings` are the numbers of
the other `string` elements that come after the "ID" key in the `dict`, behind
the ID value (the value of a "Name" key, for one): the step
`key[text()='ID']/following-sibling::string` of both queries reaches them too. -/
structure XmlNode where
  isElementNode : Bool
  ID : Int
  CFName : Option Str
  Name : Option Str
  Data : Option Str
  laterStrings : List XNumber
  deriving DecidableEq

/-- The predicate `key[text()='ID']/following-sibling::string[text() >= 0]` on a `dict`. -/
def XmlNode.someStringAtLeastZero (n : XmlNode) : Bool :=
  decide (0 ≤ n.ID) || n.laterStrings.any (fun x => x.atLeastZero)

/-- The predicate `key[text()='ID']/following-sibling::string[text() = index]` on a `dict`. -/
def XmlNode.someStringEquals (n : XmlNode) (index : Int) : Bool :=
  decide (n.ID = index) || n.laterStrings.any (fun x => x.equalsInt index)

/-- Modelled from the spec: the parsed metadata document `m_kolyXML` (§3, §6),
reduced to the `dict` entries of its `blkx` array in document order; the XML
parser and the path query engine are libraries outside the sources. -/
structure KolyXML where
  blkx : List XmlNode
  deriving DecidableEq

/-- The node set of the query of `loadKoly`: the entries that have, after their
"ID" key, a `string` with a number `≥ 0` (the ID value or a later one), in document order. -/
def blkxNodes (m_kolyXML : KolyXML) : List XmlNode :=
  m_kolyXML.blkx.filter (fun n => n.someStringAtLeastZero)

/-- The string value of the query of `loadBLKXTableForPartition`: the text of
the first "Data" element among the entries that have, after their "ID" key, a
`string` with the number `index` (the ID value or a later one); `none` stands for
every result that fails `xpathObj && xpathObj->stringval && *xpathObj->stringval`
by having no such element. -/
def blkxData (m_kolyXML : KolyXML) (index : Int) : Option Str :=
  ((m_kolyXML.blkx.filter (fun n => n.someStringEquals index)).filterMap
    (fun n => n.Data)).head?

/-- The method `DMGDisk::loadBLKXTableForPartition`: the bytes of the buffer
`rv` points to (exactly `data.size()` of them), or `none` for `nullptr`. -/
def loadBLKXTableForPartition (m_kolyXML : KolyXML) (index : Int) : Option (List Nat) :=
  match blkxData m_kolyXML index with
  | some stringval =>
    if stringval ≠ [] then some (base64Decode stringval []).2 else none
  | none => none

/-- The struct `Partition`.  `offset` and `size` are `uint64_t` members without
an initialiser: `none` is a value the program never defined (the member was
not assigned, or was read from past the end of the table buffer). -/
structure Partition where
  name : Str
  type : Str
  offset : Option Nat
  size : Option Nat
  deriving DecidableEq

/-- The expression `be(table->f) * 512` in `uint64_t`, for the field at offset `off`. -/
def sectorsToBytes (table : List Nat) (off : Nat) : Option Nat :=
  (field table off 8).map (fun bytes => be bytes * 512 % 2 ^ 64)

/-- The value of `part` after the assignments under `if (table)`. -/
def partGeometry (h : Decls) (table : Option (List Nat)) : Option Nat × Option Nat :=
  match table with
  | some t => (sectorsToBytes t h.firstSectorNumber, sectorsToBytes t h.sectorCount)
  | none => (none, none)

/-- The string value `xpathObj->stringval` after the "CFName" query and, when that
gave none, the "Name" query; `none` when the second gave none as well. -/
def displayString (node : XmlNode) : Option Str :=
  match node.CFName with
  | some s => some s
  | none => node.Name

/-- The loop of `DMGDisk::loadPartitionElements` from index `i` on, over the
nodes `nodeTab[i..nodeNr)`; the result is the return value with the final `m_partitions`. -/
def loadPartitionElementsFrom (h : Decls) (m_kolyXML : KolyXML) :
    Int → List XmlNode → List Partition → Except Error (Bool × List Partition)
  | _, [], m_partitions => .ok (true, m_partitions)
  | i, node :: rest, m_partitions =>
    if !node.isElementNode then loadPartitionElementsFrom h m_kolyXML (i + 1) rest m_partitions
    else
      match displayString node with
      | none => .error (.io_error "Invalid XML data, partition Name key not found")
      | some stringval =>
        let table := loadBLKXTableForPartition m_kolyXML i
        let g := partGeometry h table
        let p := parseNameAndType stringval [] []
        let part : Partition := ⟨p.2.1, p.2.2, g.1, g.2⟩
        if (!p.1 && m_partitions.isEmpty) = true then .ok (false, m_partitions)
        else loadPartitionElementsFrom h m_kolyXML (i + 1) rest (m_partitions ++ [part])

/-- The method `DMGDisk::loadPartitionElements`. -/
def loadPartitionElements (h : Decls) (m_kolyXML : KolyXML) (nodes : List XmlNode)
    (m_partitions : List Partition) : Except Error (Bool × List Partition) :=
  loadPartitionElementsFrom h m_kolyXML 0 nodes m_partitions

/-- A block table of 24 bytes: the magic `mish`, version 1, then the two 64-bit sector fields. -/
def sampleTable (firstSector sectors : Nat) : List Nat :=
  ascii "mish" ++ [0, 0, 0, 1] ++ beBytes 8 firstSector ++ beBytes 8 sectors

/-- A `dict` element with ID `id`, the display string `cfname` and the "Data" text
`data` followed by a line feed, as the text of a plist element is laid out; no
`string` follows the ID value. -/
def sampleNode (id : Int) (cfname data : String) : XmlNode :=
  ⟨true, id, some (ascii cfname), none, some (ascii data ++ [10]), []⟩

/-- The whole-disk entry (ID `-1`) and the partitions "System" (ID `0`, sector `0`,
`100` sectors) and "Data" (ID `1`, sector `100`, `200` sectors). -/
def sampleDoc : KolyXML :=
  ⟨[sampleNode (-1) "whole disk (Apple_HFS : -1)" "bWlzaAAAAAEAAAAAAAAAAAAAAAAAAAEs",
    sampleNode 0 "System (Apple_HFS : 0)" "bWlzaAAAAAEAAAAAAAAAAAAAAAAAAABk",
    sampleNode 1 "Data (Apple_HFS : 1)" "bWlzaAAAAAEAAAAAAAAAZAAAAAAAAADI"]⟩

/-- A 512-byte trailer that starts with `sig` and is zero elsewhere, after `body`. -/
def sampleImage (body : List Nat) (sig : Str) : List Nat :=
  body ++ sig ++ List.replicate (512 - sig.length) 0

/-! ## `loadKoly` and the readers -/

/-- The value of `part` that iteration `i` of `loadPartitionElements` appends for
the display string `stringval`. -/
def partFor (h : Decls) (m_kolyXML : KolyXML) (i : Int) (stringval : Str) : Partition :=
  ⟨(parseNameAndType stringval [] []).2.1, (parseNameAndType stringval [] []).2.2,
    (partGeometry h (loadBLKXTableForPartition m_kolyXML i)).1,
    (partGeometry h (loadBLKXTableForPartition m_kolyXML i)).2⟩

/-- The method `DMGDisk::readerForKolyBlock`.  The reader
`DMGPartition(m_reader, table)` is represented by its block table; `none` is `nullptr`. -/
def readerForKolyBlock (m_kolyXML : KolyXML) (index : Int) : Option (List Nat) :=
  loadBLKXTableForPartition m_kolyXML index

/-- Modelled from the spec: the scheme parsers `AppleDisk` and `GPTDisk` (§4.6),
classes outside the sources: the two probes on the reader over block `-1`, and
the list `partitions()` of the parser built on that reader and a second one. -/
structure SchemeParsers where
  isAppleDisk : Option (List Nat) → Bool
  isGPTDisk : Option (List Nat) → Bool
  applePartitions : Option (List Nat) → Option (List Nat) → List Partition
  gptPartitions : Option (List Nat) → Option (List Nat) → List Partition

/-- The block `if (!simpleWayOK) { ... }` of `loadKoly`: the new value of `m_partitions`. -/
def fallbackScheme (sp : SchemeParsers) (m_kolyXML : KolyXML) : Except Error (List Partition) :=
  let rm1 := readerForKolyBlock m_kolyXML (-1)
  if sp.isAppleDisk rm1 then
    .ok (sp.applePartitions rm1 (readerForKolyBlock m_kolyXML 0))
  else if sp.isGPTDisk rm1 then
    .ok (sp.gptPartitions rm1 (readerForKolyBlock m_kolyXML 1))
  else .error (.function_not_implemented_error "Unknown partition table type")

/-- The part of `DMGDisk::loadKoly` after the document is parsed, on a new object
(`m_partitions` empty): the final `m_partitions`, or the exception.  `nodesetval`
is the node set of the query, `none` when `xpathObj && xpathObj->nodesetval` fails. -/
def discoverPartitions (h : Decls) (sp : SchemeParsers) (m_kolyXML : KolyXML)
    (nodesetval : Option (List XmlNode)) : Except Error (List Partition) :=
  match (match nodesetval with
      | some nodes => loadPartitionElements h m_kolyXML nodes []
      | none => .ok (false, [])) with
  | .error e => .error e
  | .ok (simpleWayOK, m_partitions) =>
    if !simpleWayOK then fallbackScheme sp m_kolyXML else .ok m_partitions

/-- Modelled from the spec: the XML library (§6), outside the sources, with the
allocator the blob buffer comes from: whether `new char[length]` gets its memory,
`xmlParseMemory` on what the read stored into the buffer of `length` bytes, and
the node set that the query of `loadKoly` gives on the parsed document. -/
structure XmlLibrary where
  newCharArray : Nat → Bool
  xmlParseMemory : Option (List Nat) → Nat → KolyXML
  nodesetval : KolyXML → Option (List XmlNode)

/-- The XML library with the path queries as `blkxNodes` has them, parsing every
blob to `doc`, on a machine that has memory for a buffer of less than `2^31` bytes. -/
def xmlLibraryFor (doc : KolyXML) : XmlLibrary :=
  ⟨fun length => decide (length < 2 ^ 31), fun _ _ => doc, fun d => some (blkxNodes d)⟩

/-- The document `m_kolyXML` that `loadKoly` parses out of the blob the trailer `koly` locates. -/
def parsedDocument (h : Decls) (xml : XmlLibrary) (m_reader : Reader) (koly : List Nat) :
    KolyXML :=
  xml.xmlParseMemory
    (m_reader.read (be ((koly.drop h.fUDIFXMLLength).take 8))
      (be ((koly.drop h.fUDIFXMLOffset).take 8)))
    (be ((koly.drop h.fUDIFXMLLength).take 8))

/-- The method `DMGDisk::loadKoly` on the trailer bytes `koly`: the allocation
`new char[length]`, which throws `std::bad_alloc` before anything is read when it
gets no memory, then one read of `length` bytes at `offset`, then the discovery. -/
def loadKoly (h : Decls) (sp : SchemeParsers) (xml : XmlLibrary) (m_reader : Reader)
    (koly : List Nat) : Run (List Partition) :=
  let offset := be ((koly.drop h.fUDIFXMLOffset).take 8)
  let length := be ((koly.drop h.fUDIFXMLLength).take 8)
  if !xml.newCharArray length then ⟨[], .error .bad_alloc⟩
  else
    let m_kolyXML := xml.xmlParseMemory (m_reader.read length offset) length
    ⟨[(length, offset)], discoverPartitions h sp m_kolyXML (xml.nodesetval m_kolyXML)⟩

/-- The constructor `DMGDisk::DMGDisk` with `loadKoly` in place: the reads made and
the partition list of the new object, or the exception. -/
def newDMGDisk (h : Decls) (sp : SchemeParsers) (xml : XmlLibrary) (m_reader : Reader) :
    Run (List Partition) :=
  construct h m_reader (loadKoly h sp xml m_reader)

/-- The object `readerForPartition` returns: a `CachedReader` named `name` on the
zone of the disk, over `DMGPartition(m_reader, table)`. -/
structure CachedReader where
  table : List Nat
  name : String
  deriving DecidableEq

/-- Where a call of `readerForPartition` stands after a number of turns of its
loop: it has returned a reader, it has read an undefined value (a field past the
end of a table buffer, a partition that is not in the list or whose offset was
never assigned, or the counter `i` past `INT_MAX`), or it is still in the loop.
The `return nullptr` after the loop has no path leading to it. -/
inductive Scan where
  | returned (reader : CachedReader)
  | undefinedValue (i : Int)
  | inLoop
  deriving DecidableEq

/-- The loop `for (int i = -1;; i++)` of `DMGDisk::readerForPartition` from the
value `i` of the counter, for at most `turns` turns. -/
def readerForPartitionFrom (h : Decls) (m_kolyXML : KolyXML) (m_partitions : List Partition)
    (index : Nat) : Nat → Int → Scan
  | 0, _ => .inLoop
  | turns + 1, i =>
    if 2 ^ 31 ≤ i then .undefinedValue i
    else
      match loadBLKXTableForPartition m_kolyXML i with
      | none => readerForPartitionFrom h m_kolyXML m_partitions index turns (i + 1)
      | some table =>
        match sectorsToBytes table h.firstSectorNumber,
            (m_partitions[index]?).bind (fun part => part.offset) with
        | some first, some offset =>
          if first = offset then .returned ⟨table, "part-" ++ toString index⟩
          else readerForPartitionFrom h m_kolyXML m_partitions index turns (i + 1)
        | _, _ => .undefinedValue i

/-- The method `DMGDisk::readerForPartition`, followed for at most `turns` turns of its loop. -/
def readerForPartition (h : Decls) (m_kolyXML : KolyXML) (m_partitions : List Partition)
    (index : Nat) (turns : Nat) : Scan :=
  readerForPartitionFrom h m_kolyXML m_partitions index turns (-1)

/-! ## More sample inputs -/

/-- Scheme parsers that recognise nothing. -/
def noScheme : SchemeParsers := ⟨fun _ => false, fun _ => false, fun _ _ => [], fun _ _ => []⟩

/-- Scheme parsers that recognise an Apple Partition Map on every reader and list one partition. -/
def appleScheme : SchemeParsers :=
  ⟨fun _ => true, fun _ => false,
    fun _ _ => [⟨ascii "disk image", ascii "Apple_HFS", some 20480, some 40960⟩], fun _ _ => []⟩

/-- A document whose only entry with an ID `≥ 0` has neither name key: both name
queries give the empty string, as XPath `string()` does on an empty node set. -/
def noNameDoc : KolyXML :=
  ⟨[sampleNode (-1) "whole disk (Apple_HFS : -1)" "bWlzaAAAAAEAAAAAAAAAAAAAAAAAAAEs",
    ⟨true, 0, some [], some [], some (ascii "bWlzaAAAAAEAAAAAAAAAAAAAAAAAAABk" ++ [10]), []⟩]⟩

/-- A document whose only entry is the whole-disk entry of ID `-1`. -/
def wholeDiskDoc : KolyXML :=
  ⟨[sampleNode (-1) "whole disk (Apple_HFS : -1)" "bWlzaAAAAAEAAAAAAAAAAAAAAAAAAAEs"]⟩

/-- A document whose entry of ID `0` has the one character `=` as its "Data" text. -/
def padOnlyDoc : KolyXML :=
  ⟨[⟨true, 0, some (ascii "System (Apple_HFS : 0)"), none, some (ascii "="), []⟩]⟩

/-- A document whose first `blkx` entry, the whole-disk entry of ID `-1`, has
neither name key, and whose second entry, of ID `0`, is "System". -/
def namelessFirstDoc : KolyXML :=
  ⟨[⟨true, -1, some [], some [], some (ascii "bWlzaAAAAAEAAAAAAAAAAAAAAAAAAAEs" ++ [10]), []⟩,
    sampleNode 0 "System (Apple_HFS : 0)" "bWlzaAAAAAEAAAAAAAAAAAAAAAAAAABk"]⟩

/-- A document whose only entry has the ID `7`, no "CFName" key, and after the ID
value a "Name" key with the value "0". -/
def numericNameDoc : KolyXML :=
  ⟨[⟨true, 7, some [], some (ascii "0"),
    some (ascii "bWlzaAAAAAEAAAAAAAAAAAAAAAAAAABk" ++ [10]), [.integer 0]⟩]⟩

/-! ## Facts about the string primitives -/

theorem sizeSub_of_le {a b : Nat} (hb : b ≤ a) (ha : a < 2 ^ 64) : sizeSub a b = a - b := by
  unfold sizeSub
  have hb2 : b % 2 ^ 64 = b := Nat.mod_eq_of_lt (by omega)
  rw [hb2]
  have : a + 2 ^ 64 - b = (a - b) + 2 ^ 64 := by omega
  rw [this, Nat.add_mod_right]
  exact Nat.mod_eq_of_lt (by omega)

theorem find_mem {s : Str} {c pos : Nat} (hc : c ∈ s.drop pos) :
    find s c pos = pos + (s.drop pos).indexOf c := by
  simp [find, hc]

theorem find_not_mem {s : Str} {c pos : Nat} (hc : c ∉ s.drop pos) : find s c pos = npos := by
  simp [find, hc]

theorem find_lt_length {s : Str} {c pos : Nat} (hc : c ∈ s.drop pos) :
    find s c pos < s.length := by
  rw [find_mem hc]
  have h1 := List.indexOf_lt_length.2 hc
  rw [List.length_drop] at h1
  omega

theorem find_eq_npos_iff {s : Str} {c pos : Nat} (hlen : s.length < 2 ^ 64) :
    find s c pos = npos ↔ c ∉ s.drop pos := by
  constructor
  · intro h hc
    have := find_lt_length hc
    rw [h] at this
    unfold npos at this
    omega
  · exact find_not_mem

theorem find_split (p a b : Str) (c : Nat) (hc : c ∉ a) :
    find (p ++ a ++ c :: b) c p.length = p.length + a.length := by
  have hd : (p ++ a ++ c :: b).drop p.length = a ++ c :: b := by
    rw [List.append_assoc, List.drop_left]
  have hm : c ∈ (p ++ a ++ c :: b).drop p.length := by simp [hd]
  rw [find_mem hm, hd, List.indexOf_append_of_not_mem hc, List.indexOf_cons_self, Nat.add_zero]

theorem rfindAux_append_self (c : Nat) (t : Str) : rfindAux c (t ++ [c]) = some t.length := by
  induction t with
  | nil => simp [rfindAux]
  | cons x xs ih => simp [rfindAux, ih]

/-! ## The fuel of `skipLoop` -/

theorem skipLoop_fuel_irrelevant (input : Str) (in_len_const : Nat) :
    ∀ (fuel extra in_ : Nat), in_len_const - 1 - in_ ≤ fuel →
      skipLoop input in_len_const (fuel + extra) in_ = skipLoop input in_len_const fuel in_ := by
  intro fuel
  induction fuel with
  | zero =>
    intro extra in_ hle
    cases extra with
    | zero => rfl
    | succ e =>
      have hge : ¬ in_ + 1 < in_len_const := by omega
      simp [skipLoop, hge]
  | succ f ih =>
    intro extra in_ hle
    have e : f + 1 + extra = (f + extra) + 1 := by omega
    rw [e]
    simp only [skipLoop]
    split
    · split
      · exact ih extra (in_ + 1) (by omega)
      · rfl
    · rfl

/-! ## `parseNameAndType` on the descriptor grammar -/

theorem descriptor_eq (n t r : Str) :
    descriptor n t r = n ++ 32 :: 40 :: (t ++ 32 :: 58 :: 32 :: (r ++ [41])) := by
  have e1 : ascii " (" = [32, 40] := by decide
  have e2 : ascii " : " = [32, 58, 32] := by decide
  have e3 : ascii ")" = [41] := by decide
  simp [descriptor, e1, e2, e3]

theorem descriptor_length (n t r : Str) :
    (descriptor n t r).length = n.length + t.length + r.length + 6 := by
  rw [descriptor_eq]
  simp
  omega

theorem find_paren_descriptor (n t r : Str) (hn : 40 ∉ n) :
    find (descriptor n t r) 40 0 = n.length + 1 := by
  have h := find_split [] (n ++ [32]) (t ++ 32 :: 58 :: 32 :: (r ++ [41])) 40 (by simp [hn])
  have e : descriptor n t r = [] ++ (n ++ [32]) ++ 40 :: (t ++ 32 :: 58 :: 32 :: (r ++ [41])) := by
    rw [descriptor_eq]; simp
  rw [e, List.length_nil] at *
  rw [h]; simp

theorem find_colon_descriptor (n t r : Str) (ht : 58 ∉ t) :
    find (descriptor n t r) 58 (n.length + 1) = n.length + t.length + 3 := by
  have h := find_split (n ++ [32]) (40 :: (t ++ [32])) (32 :: (r ++ [41])) 58 (by simp [ht])
  have e : descriptor n t r = (n ++ [32]) ++ (40 :: (t ++ [32])) ++ 58 :: (32 :: (r ++ [41])) := by
    rw [descriptor_eq]; simp
  have hl : (n ++ [32]).length = n.length + 1 := by simp
  rw [hl] at h
  rw [e, h]; simp; omega

theorem parseNameAndType_descriptor_aux (n t r name type : Str) (hn : 40 ∉ n) (ht : 58 ∉ t)
    (hlen : (descriptor n t r).length < 2 ^ 64) :
    parseNameAndType (descriptor n t r) name type = (true, n, t) := by
  have hL := descriptor_length n t r
  have hp := find_paren_descriptor n t r hn
  have hc := find_colon_descriptor n t r ht
  have hs1 : sizeSub (n.length + 1) 1 = n.length := by
    rw [sizeSub_of_le (by omega) (by omega)]; omega
  have hs2 : sizeSub (n.length + t.length + 3) (n.length + 1) = t.length + 2 := by
    rw [sizeSub_of_le (by omega) (by omega)]; omega
  have hs3 : sizeSub (t.length + 2) 1 = t.length + 1 := by
    rw [sizeSub_of_le (by omega) (by omega)]; omega
  have hs4 : sizeSub (t.length + 1) 1 = t.length := by
    rw [sizeSub_of_le (by omega) (by omega)]; omega
  have hm : (n.length + 1 + 1) % 2 ^ 64 = n.length + 2 := Nat.mod_eq_of_lt (by omega)
  have hname : substr (descriptor n t r) 0 n.length = n := by
    rw [descriptor_eq]; simp [substr]
  have htype : substr (descriptor n t r) (n.length + 2) (t.length + 1) = t ++ [32] := by
    have e : descriptor n t r = (n ++ [32, 40]) ++ ((t ++ [32]) ++ 58 :: 32 :: (r ++ [41])) := by
      rw [descriptor_eq]; simp
    have hl : n.length + 2 = (n ++ [32, 40]).length := by simp
    have hl2 : t.length + 1 = (t ++ [32]).length := by simp
    rw [e, substr, hl, List.drop_left, hl2, List.take_left]
  have hr : rfind (t ++ [32]) 32 = t.length := by
    simp [rfind, rfindAux_append_self]
  have hnp1 : n.length + 1 ≠ npos := by unfold npos; omega
  have hnp2 : n.length + t.length + 3 ≠ npos := by unfold npos; omega
  have hnp3 : t.length ≠ npos := by unfold npos; omega
  have htl : (t ++ [32]).length = t.length + 1 := by simp
  simp only [parseNameAndType, hp, hc, hnp1, hnp2, if_false, hs1, hs2, hs3, hm, hname, htype, hr,
    htl, hs4, hnp3, ne_eq, not_false_eq_true, and_self, if_true]
  simp

theorem find_zero_of_mem {s : Str} {c : Nat} (hc : c ∈ s) : find s c 0 = s.indexOf c := by
  have : c ∈ s.drop 0 := by simpa using hc
  rw [find_mem this]; simp

theorem drop_indexOf_of_mem {s : Str} {c : Nat} (hc : c ∈ s) :
    s.drop (s.indexOf c) = c :: s.drop (s.indexOf c + 1) := by
  have hlt : s.indexOf c < s.length := List.indexOf_lt_length.2 hc
  rw [List.drop_eq_getElem_cons hlt, List.getElem_indexOf hlt]

theorem parseNameAndType_no_paren (s name type : Str) (h40 : 40 ∉ s) :
    parseNameAndType s name type = (false, name, type) := by
  have : find s 40 0 = npos := find_not_mem (by simpa using h40)
  simp [parseNameAndType, this]

theorem parseNameAndType_fst (s name type : Str) (hlen : s.length < 2 ^ 64) :
    (parseNameAndType s name type).1 = false ↔
      (40 ∉ s ∨ 58 ∉ s.drop (s.indexOf 40 + 1)) := by
  by_cases h40 : 40 ∈ s
  · have hp : find s 40 0 = s.indexOf 40 := find_zero_of_mem h40
    have hlt : s.indexOf 40 < s.length := List.indexOf_lt_length.2 h40
    have hnp : s.indexOf 40 ≠ npos := by unfold npos; omega
    have hd := drop_indexOf_of_mem h40
    have hmem : (58 ∈ s.drop (s.indexOf 40)) ↔ (58 ∈ s.drop (s.indexOf 40 + 1)) := by
      rw [hd]; simp
    by_cases h58 : 58 ∈ s.drop (s.indexOf 40)
    · have hc : find s 58 (s.indexOf 40) ≠ npos := by
        have := find_lt_length h58
        unfold npos; omega
      have h58b := hmem.1 h58
      simp only [parseNameAndType, hp, hnp, if_false, hc]
      split <;> simp [h40, h58b]
    · have hc : find s 58 (s.indexOf 40) = npos := find_not_mem h58
      have h58b : 58 ∉ s.drop (s.indexOf 40 + 1) := fun h => h58 (hmem.2 h)
      simp [parseNameAndType, hp, hnp, hc, h58b]
  · rw [parseNameAndType_no_paren s name type h40]
    simp [h40]

theorem parseNameAndType_name (s name type : Str) (h40 : 40 ∈ s) (hlen : s.length < 2 ^ 64) :
    (parseNameAndType s name type).2.1 = substr s 0 (sizeSub (s.indexOf 40) 1) := by
  have hp : find s 40 0 = s.indexOf 40 := find_zero_of_mem h40
  have hlt : s.indexOf 40 < s.length := List.indexOf_lt_length.2 h40
  have hnp : s.indexOf 40 ≠ npos := by unfold npos; omega
  simp only [parseNameAndType, hp, hnp, if_false]
  split
  · simp only
  · split <;> simp only

/-! ## Big-endian fields -/

theorem be_append_singleton (l : List Nat) (x : Nat) : be (l ++ [x]) = be l * 256 + x := by
  simp [be, List.foldl_append]

theorem be_beBytes (w v : Nat) : be (beBytes w v) = v % 256 ^ w := by
  induction w generalizing v with
  | zero => simp [beBytes, be, Nat.mod_one]
  | succ w ih =>
    rw [beBytes, be_append_singleton, ih, pow_succ, Nat.mul_comm (256 ^ w) 256, Nat.mod_mul]
    omega

theorem be_beBytes_of_lt (w v : Nat) (hv : v < 256 ^ w) : be (beBytes w v) = v := by
  rw [be_beBytes, Nat.mod_eq_of_lt hv]

theorem beBytes_length (w v : Nat) : (beBytes w v).length = w := by
  induction w generalizing v with
  | zero => rfl
  | succ w ih => simp [beBytes, ih]

theorem beBytes_four_of_be (d : List Nat) (hd : d.length = 4) (hb : ∀ b ∈ d, b < 256) :
    beBytes 4 (be d) = d := by
  match d, hd with
  | [a, b, c, e], _ =>
    have ha : a < 256 := hb a (by simp)
    have hb2 : b < 256 := hb b (by simp)
    have hc : c < 256 := hb c (by simp)
    have he : e < 256 := hb e (by simp)
    simp only [beBytes, be, List.foldl, List.nil_append, List.cons_append]
    have e1 : (((0 * 256 + a) * 256 + b) * 256 + c) * 256 + e =
        a * 16777216 + b * 65536 + c * 256 + e := by ring
    rw [e1]
    congr 1
    · omega
    · congr 1
      · omega
      · congr 1
        · omega
        · congr 1
          omega

/-! ## `isDMG` and the constructor -/

theorem sizeSub_wraps {a : Nat} (ha : a < 512) : sizeSub a 512 = a + 2 ^ 64 - 512 := by
  unfold sizeSub
  have h1 : 512 % 2 ^ 64 = 512 := by norm_num
  rw [h1]
  exact Nat.mod_eq_of_lt (by omega)

theorem readInto_none {r : Reader} {buf : List Nat} {count offset : Nat}
    (h : r.read count offset = none) : r.readInto buf count offset = buf := by
  simp [Reader.readInto, h]

theorem readInto_nil {r : Reader} {buf : List Nat} {count offset : Nat}
    (h : r.read count offset = some []) : r.readInto buf count offset = buf := by
  simp [Reader.readInto, h]

theorem readInto_four {r : Reader} {d : List Nat} {offset : Nat}
    (h : r.read 4 offset = some d) (hd : d.length = 4) :
    r.readInto [0, 0, 0, 0] 4 offset = d := by
  have ht : d.take 4 = d := by rw [← hd]; exact List.take_length d
  simp [Reader.readInto, h, ht, hd]

theorem isDMG_nothing_read (h : Decls) (reader : Reader) (hsig : 0 < h.UDIF_SIGNATURE)
    (hr : reader.read 4 (sizeSub reader.length 512) = none ∨
      reader.read 4 (sizeSub reader.length 512) = some []) :
    isDMG h reader = false := by
  have hb : reader.readInto [0, 0, 0, 0] 4 (sizeSub reader.length 512) = [0, 0, 0, 0] := by
    rcases hr with hr | hr
    · exact readInto_none hr
    · exact readInto_nil hr
  have h0 : be [0, 0, 0, 0] = 0 := by decide
  have hne : (0 : Nat) ≠ h.UDIF_SIGNATURE := by omega
  simp [isDMG, hb, h0, hne]

theorem isDMG_four_read (h : Decls) (reader : Reader) (d : List Nat)
    (hr : reader.read 4 (sizeSub reader.length 512) = some d) (hd : d.length = 4) :
    isDMG h reader = (be d == h.UDIF_SIGNATURE) := by
  simp [isDMG, readInto_four hr hd]

theorem ofBytes_noDataPastEnd (contents : List Nat) : (Reader.ofBytes contents).NoDataPastEnd := by
  intro count offset hle
  right
  have : contents.drop offset = [] := List.drop_eq_nil_of_le hle
  simp [Reader.ofBytes, this]

/-! ## `loadPartitionElements` -/

theorem loadPartitionElementsFrom_cons (h : Decls) (doc : KolyXML) (i : Int) (node : XmlNode)
    (rest : List XmlNode) (acc : List Partition) (s : Str)
    (he : node.isElementNode = true) (hs : displayString node = some s) :
    loadPartitionElementsFrom h doc i (node :: rest) acc =
      if (!(parseNameAndType s [] []).1 && acc.isEmpty) = true then .ok (false, acc)
      else loadPartitionElementsFrom h doc (i + 1) rest
        (acc ++ [⟨(parseNameAndType s [] []).2.1, (parseNameAndType s [] []).2.2,
          (partGeometry h (loadBLKXTableForPartition doc i)).1,
          (partGeometry h (loadBLKXTableForPartition doc i)).2⟩]) := by
  simp [loadPartitionElementsFrom, he, hs]

theorem loadPartitionElementsFrom_skip (h : Decls) (doc : KolyXML) (i : Int) (node : XmlNode)
    (rest : List XmlNode) (acc : List Partition) (he : node.isElementNode = false) :
    loadPartitionElementsFrom h doc i (node :: rest) acc =
      loadPartitionElementsFrom h doc (i + 1) rest acc := by
  simp [loadPartitionElementsFrom, he]

theorem loadPartitionElementsFrom_no_string (h : Decls) (doc : KolyXML) (i : Int)
    (node : XmlNode) (rest : List XmlNode) (acc : List Partition)
    (he : node.isElementNode = true) (hs : displayString node = none) :
    loadPartitionElementsFrom h doc i (node :: rest) acc =
      .error (.io_error "Invalid XML data, partition Name key not found") := by
  simp [loadPartitionElementsFrom, he, hs]

theorem loadPartitionElementsFrom_cons_partFor (h : Decls) (doc : KolyXML) (i : Int)
    (node : XmlNode) (rest : List XmlNode) (acc : List Partition) (s : Str)
    (he : node.isElementNode = true) (hs : displayString node = some s) :
    loadPartitionElementsFrom h doc i (node :: rest) acc =
      if (!(parseNameAndType s [] []).1 && acc.isEmpty) = true then .ok (false, acc)
      else loadPartitionElementsFrom h doc (i + 1) rest (acc ++ [partFor h doc i s]) :=
  loadPartitionElementsFrom_cons h doc i node rest acc s he hs

theorem loadPartitionElementsFrom_not_false (h : Decls) (doc : KolyXML) :
    ∀ (nodes : List XmlNode) (i : Int) (acc parts : List Partition), acc ≠ [] →
      loadPartitionElementsFrom h doc i nodes acc ≠ .ok (false, parts) := by
  intro nodes
  induction nodes with
  | nil => intro i acc parts _; simp [loadPartitionElementsFrom]
  | cons node rest ih =>
    intro i acc parts hacc
    cases he : node.isElementNode with
    | false =>
      rw [loadPartitionElementsFrom_skip h doc i node rest acc he]
      exact ih (i + 1) acc parts hacc
    | true =>
      cases hs : displayString node with
      | none =>
        rw [loadPartitionElementsFrom_no_string h doc i node rest acc he hs]
        simp
      | some s =>
        rw [loadPartitionElementsFrom_cons_partFor h doc i node rest acc s he hs]
        have hne : acc.isEmpty = false := by
          cases acc with
          | nil => exact absurd rfl hacc
          | cons a l => rfl
        simp only [hne, Bool.and_false, Bool.false_eq_true, if_false]
        exact ih (i + 1) _ parts (by simp)

theorem loadPartitionElementsFrom_length (h : Decls) (doc : KolyXML) :
    ∀ (nodes : List XmlNode) (i : Int) (acc parts : List Partition),
      loadPartitionElementsFrom h doc i nodes acc = .ok (true, parts) →
      parts.length = acc.length + (nodes.filter (fun n => n.isElementNode)).length := by
  intro nodes
  induction nodes with
  | nil =>
    intro i acc parts hres
    simp only [loadPartitionElementsFrom, Except.ok.injEq, Prod.mk.injEq, true_and] at hres
    simp [hres]
  | cons node rest ih =>
    intro i acc parts hres
    cases he : node.isElementNode with
    | false =>
      rw [loadPartitionElementsFrom_skip h doc i node rest acc he] at hres
      simp [List.filter_cons, he, ih (i + 1) acc parts hres]
    | true =>
      cases hs : displayString node with
      | none =>
        rw [loadPartitionElementsFrom_no_string h doc i node rest acc he hs] at hres
        simp at hres
      | some s =>
        rw [loadPartitionElementsFrom_cons_partFor h doc i node rest acc s he hs] at hres
        split at hres
        · simp at hres
        · have := ih (i + 1) _ parts hres
          simp [List.filter_cons, he, this]
          omega

theorem loadPartitionElementsFrom_false_iff (h : Decls) (doc : KolyXML) :
    ∀ (nodes : List XmlNode) (i : Int) (parts : List Partition),
      loadPartitionElementsFrom h doc i nodes [] = .ok (false, parts) ↔
        (parts = [] ∧ ∃ node s, nodes.find? (fun n => n.isElementNode) = some node ∧
          displayString node = some s ∧ (parseNameAndType s [] []).1 = false) := by
  intro nodes
  induction nodes with
  | nil => intro i parts; simp [loadPartitionElementsFrom]
  | cons node rest ih =>
    intro i parts
    cases he : node.isElementNode with
    | false =>
      rw [loadPartitionElementsFrom_skip h doc i node rest [] he, ih (i + 1) parts]
      simp [List.find?_cons, he]
    | true =>
      cases hs : displayString node with
      | none =>
        rw [loadPartitionElementsFrom_no_string h doc i node rest [] he hs]
        simp [List.find?_cons, he, hs]
      | some s =>
        rw [loadPartitionElementsFrom_cons_partFor h doc i node rest [] s he hs]
        cases hp : (parseNameAndType s [] []).1 with
        | false =>
          simp only [Bool.not_false, List.isEmpty_nil, Bool.and_self, if_true, Except.ok.injEq,
            Prod.mk.injEq, true_and]
          constructor
          · intro hparts
            exact ⟨hparts.symm, node, s, by simp [List.find?_cons, he], hs, hp⟩
          · intro hr
            exact hr.1.symm
        | true =>
          simp only [Bool.not_true, Bool.false_and, Bool.false_eq_true, if_false]
          constructor
          · intro hres
            exact absurd hres (loadPartitionElementsFrom_not_false h doc rest (i + 1) _ parts
              (by simp))
          · rintro ⟨_, node2, s2, hfind, hs2, hp2⟩
            simp only [List.find?_cons, he, Option.some.injEq] at hfind
            subst hfind
            rw [hs] at hs2
            simp only [Option.some.injEq] at hs2
            subst hs2
            rw [hp] at hp2
            exact absurd hp2 (by decide)

/-! ## `readerForPartition` -/

theorem readerForPartitionFrom_no_table (h : Decls) (doc : KolyXML) (parts : List Partition)
    (index turns : Nat) (i : Int) (hi : i < 2 ^ 31)
    (hload : loadBLKXTableForPartition doc i = none) :
    readerForPartitionFrom h doc parts index (turns + 1) i =
      readerForPartitionFrom h doc parts index turns (i + 1) := by
  have hi2 : ¬ (2147483648 : Int) ≤ i := by norm_num at hi; omega
  simp [readerForPartitionFrom, hi2, hload]

theorem readerForPartitionFrom_other_offset (h : Decls) (doc : KolyXML)
    (parts : List Partition) (index turns : Nat) (i : Int) (table : List Nat)
    (first offset : Nat) (hi : i < 2 ^ 31)
    (hload : loadBLKXTableForPartition doc i = some table)
    (hfirst : sectorsToBytes table h.firstSectorNumber = some first)
    (hoff : (parts[index]?).bind (fun part => part.offset) = some offset)
    (hne : first ≠ offset) :
    readerForPartitionFrom h doc parts index (turns + 1) i =
      readerForPartitionFrom h doc parts index turns (i + 1) := by
  have hi2 : ¬ (2147483648 : Int) ≤ i := by norm_num at hi; omega
  simp [readerForPartitionFrom, hi2, hload, hfirst, hoff, hne]

theorem readerForPartitionFrom_stays_inLoop (h : Decls) (doc : KolyXML)
    (parts : List Partition) (index offset : Nat)
    (hoff : (parts[index]?).bind (fun part => part.offset) = some offset)
    (hno : ∀ (i : Int) (table : List Nat), -1 ≤ i →
      loadBLKXTableForPartition doc i = some table →
      ∃ first, sectorsToBytes table h.firstSectorNumber = some first ∧ first ≠ offset) :
    ∀ (turns : Nat) (i : Int), -1 ≤ i → i + turns ≤ 2 ^ 31 →
      readerForPartitionFrom h doc parts index turns i = .inLoop := by
  intro turns
  induction turns with
  | zero => intro i _ _; rfl
  | succ t ih =>
    intro i hi hbound
    have hlt : i < 2 ^ 31 := by push_cast at hbound; omega
    have hnext : i + 1 + (t : Int) ≤ 2 ^ 31 := by push_cast at hbound; omega
    cases hload : loadBLKXTableForPartition doc i with
    | none =>
      rw [readerForPartitionFrom_no_table h doc parts index t i hlt hload]
      exact ih (i + 1) (by omega) hnext
    | some table =>
      obtain ⟨first, hfirst, hne⟩ := hno i table hi hload
      rw [readerForPartitionFrom_other_offset h doc parts index t i table first offset hlt hload
        hfirst hoff hne]
      exact ih (i + 1) (by omega) hnext

theorem getD_append_left (s : Str) (c i : Nat) (hi : i < s.length) :
    (s ++ [c]).getD i 0 = s.getD i 0 := by
  simp [List.getD_eq_getElem?_getD, List.getElem?_append_left hi]

theorem skipLoop_le (input : Str) (n : Nat) :
    ∀ (fuel in_ : Nat), in_ + 1 ≤ n → skipLoop input n fuel in_ + 1 ≤ n := by
  intro fuel
  induction fuel with
  | zero => intro in_ h; simpa [skipLoop] using h
  | succ f ih =>
    intro in_ h
    simp only [skipLoop]
    split
    · split
      · exact ih (in_ + 1) (by omega)
      · exact h
    · exact h

theorem skipLoop_last_irrelevant (s : Str) (c d : Nat) :
    ∀ (fuel in_ : Nat), in_ ≤ s.length →
      skipLoop (s ++ [c]) (s.length + 1) fuel in_ = skipLoop (s ++ [d]) (s.length + 1) fuel in_ := by
  intro fuel
  induction fuel with
  | zero => intro in_ _; rfl
  | succ f ih =>
    intro in_ hle
    simp only [skipLoop]
    by_cases hlast : in_ = s.length
    · have hnot : ¬ in_ + 1 < s.length + 1 := by omega
      simp [hnot]
    · have hlt : in_ < s.length := by omega
      rw [getD_append_left s c in_ hlt, getD_append_left s d in_ hlt]
      split
      · split
        · exact ih (in_ + 1) (by omega)
        · rfl
      · rfl

theorem decodeLoop_at_last (input : Str) (n in_len in_ : Nat) (buf output : List Nat)
    (hlast : in_ + 1 = n) : decodeLoop input n in_len in_ buf output = (buf, output) := by
  cases in_len with
  | zero => rfl
  | succ k =>
    have hz : n - 1 - in_ = 0 := by omega
    simp only [decodeLoop, hz, skipLoop, hlast, if_true]
    split <;> rfl

theorem decodeLoop_last_irrelevant (s : Str) (c d : Nat) :
    ∀ (in_len in_ : Nat) (buf output : List Nat), in_ ≤ s.length →
      decodeLoop (s ++ [c]) (s.length + 1) in_len in_ buf output =
        decodeLoop (s ++ [d]) (s.length + 1) in_len in_ buf output := by
  intro in_len
  induction in_len with
  | zero => intro in_ buf output _; rfl
  | succ k ih =>
    intro in_ buf output hle
    by_cases hlast : in_ = s.length
    · rw [decodeLoop_at_last _ _ _ _ _ _ (by omega), decodeLoop_at_last _ _ _ _ _ _ (by omega)]
    · have hlt : in_ < s.length := by omega
      simp only [decodeLoop]
      rw [getD_append_left s c in_ hlt, getD_append_left s d in_ hlt,
        skipLoop_last_irrelevant s c d _ in_ hle]
      have hr := skipLoop_le (s ++ [d]) (s.length + 1) (s.length + 1 - 1 - in_) in_ (by omega)
      generalize skipLoop (s ++ [d]) (s.length + 1) (s.length + 1 - 1 - in_) in_ = r at hr ⊢
      split
      · rfl
      · split
        · rfl
        · rename_i hnl
          have hrlt : r < s.length := by omega
          rw [getD_append_left s c r hrlt, getD_append_left s d r hrlt]
          split
          · exact ih (r + 1) _ _ (by omega)
          · exact ih (r + 1) _ _ (by omega)

theorem base64Decode_last_irrelevant (s : Str) (c d : Nat) (output : List Nat) :
    base64Decode (s ++ [c]) output = base64Decode (s ++ [d]) output := by
  have hl : ∀ x : Nat, (s ++ [x]).length = s.length + 1 := by intro x; simp
  simp only [base64Decode, hl]
  rw [decodeLoop_last_irrelevant s c d _ 0 [] output (by omega)]

/-! ## Decoding an encoding that is followed by one more character -/

theorem base64_chars_spec :
    ∀ v, v < 64 → is_base64 (base64_chars.getD v 0) = true ∧ base64_chars.getD v 0 ≠ 61 ∧
      b64index (base64_chars.getD v 0) = v := by
  decide

theorem b64index_zero : b64index 0 = 255 := by decide

theorem skipLoop_on_alphabet (input : Str) (n fuel in_ : Nat)
    (hb : is_base64 (input.getD in_ 0) = true) : skipLoop input n fuel in_ = in_ := by
  cases fuel with
  | zero => rfl
  | succ f => simp only [skipLoop, hb, Bool.not_true, Bool.false_eq_true, if_false]

theorem decodeLoop_at_pad (input : Str) (n in_len in_ : Nat) (buf output : List Nat)
    (hpad : input.getD in_ 0 = 61) : decodeLoop input n in_len in_ buf output = (buf, output) := by
  cases in_len with
  | zero => rfl
  | succ k => simp only [decodeLoop, hpad, if_true]

theorem decodeLoop_take (input : Str) (n k in_ ch : Nat) (buf output : List Nat)
    (hch : input.getD in_ 0 = ch) (hb : is_base64 ch = true) (hne : ch ≠ 61)
    (hnl : in_ + 1 ≠ n) (hbuf : buf.length < 3) :
    decodeLoop input n (k + 1) in_ buf output =
      decodeLoop input n k (in_ + 1) (buf ++ [ch]) output := by
  have hs : skipLoop input n (n - 1 - in_) in_ = in_ :=
    skipLoop_on_alphabet input n _ in_ (by rw [hch]; exact hb)
  have hl : ¬ (buf ++ [ch]).length = 4 := by simp; omega
  simp only [decodeLoop, hch, hne, if_false, hs, hnl]
  rw [if_neg hl]

theorem decodeLoop_take_fourth (input : Str) (n k in_ ch x0 x1 x2 : Nat) (output : List Nat)
    (hch : input.getD in_ 0 = ch) (hb : is_base64 ch = true) (hne : ch ≠ 61)
    (hnl : in_ + 1 ≠ n) :
    decodeLoop input n (k + 1) in_ [x0, x1, x2] output =
      decodeLoop input n k (in_ + 1) []
        (output ++ char_array_3 (b64index x0) (b64index x1) (b64index x2) (b64index ch)) := by
  have hs : skipLoop input n (n - 1 - in_) in_ = in_ :=
    skipLoop_on_alphabet input n _ in_ (by rw [hch]; exact hb)
  simp only [decodeLoop, hch, hne, if_false, hs, hnl]
  rfl

set_option maxRecDepth 100000 in
theorem land_48 : ∀ x, x < 256 → (x &&& 0x30) >>> 4 = x / 16 % 4 := by decide

set_option maxRecDepth 100000 in
theorem land_15 : ∀ x, x < 256 → x &&& 0xf = x % 16 := by decide

set_option maxRecDepth 100000 in
theorem land_60 : ∀ x, x < 256 → (x &&& 0x3c) >>> 2 = x / 4 % 16 := by decide

set_option maxRecDepth 100000 in
theorem land_3 : ∀ x, x < 256 → x &&& 0x3 = x % 4 := by decide

theorem char_array_3_eq (a0 a1 a2 a3 : Nat) (h1 : a1 < 256) (h2 : a2 < 256) :
    char_array_3 a0 a1 a2 a3 =
      [(a0 * 4 + a1 / 16 % 4) % 256, (a1 % 16 * 16 + a2 / 4 % 16) % 256,
        (a2 % 4 * 64 + a3) % 256] := by
  simp only [char_array_3, land_48 a1 h1, land_15 a1 h1, land_60 a2 h2, land_3 a2 h2,
    Nat.shiftLeft_eq]

theorem char_array_3_group (a b c : Nat) (ha : a < 256) (hb : b < 256) (hc : c < 256) :
    char_array_3 (a / 4) (a % 4 * 16 + b / 16) (b % 16 * 4 + c / 64) (c % 64) = [a, b, c] := by
  rw [char_array_3_eq _ _ _ _ (by omega) (by omega)]
  congr 1
  · omega
  · congr 1
    · omega
    · congr 1
      omega

theorem char_array_3_one (a : Nat) (ha : a < 256) :
    (char_array_3 (a / 4) (a % 4 * 16) 255 255).take 1 = [a] := by
  rw [char_array_3_eq _ _ _ _ (by omega) (by omega)]
  simp only [List.take_succ_cons, List.take_zero]
  congr 1
  omega

theorem char_array_3_two (a b : Nat) (ha : a < 256) (hb : b < 256) :
    (char_array_3 (a / 4) (a % 4 * 16 + b / 16) (b % 16 * 4) 255).take 2 = [a, b] := by
  rw [char_array_3_eq _ _ _ _ (by omega) (by omega)]
  simp only [List.take_succ_cons, List.take_zero]
  congr 1
  · omega
  · congr 1
    omega

theorem getD_append_head (pre rest : Str) (ch : Nat) :
    (pre ++ ch :: rest).getD pre.length 0 = ch := by
  rw [List.getD_eq_getElem?_getD, List.getElem?_append_right (Nat.le_refl _)]
  simp

theorem decodeLoop_take_cons (pre rest : Str) (ch n k : Nat) (buf output : List Nat)
    (hn : n = pre.length + (rest.length + 1)) (hrest : rest ≠ [])
    (hb : is_base64 ch = true) (hne : ch ≠ 61) (hbuf : buf.length < 3) :
    decodeLoop (pre ++ ch :: rest) n (k + 1) pre.length buf output =
      decodeLoop ((pre ++ [ch]) ++ rest) n k (pre ++ [ch]).length (buf ++ [ch]) output := by
  have hpos : 0 < rest.length := List.length_pos.2 hrest
  rw [decodeLoop_take (pre ++ ch :: rest) n k pre.length ch buf output
    (getD_append_head pre rest ch) hb hne (by omega) hbuf]
  simp

theorem decodeLoop_take_fourth_cons (pre rest : Str) (ch n k x0 x1 x2 : Nat)
    (output : List Nat) (hn : n = pre.length + (rest.length + 1)) (hrest : rest ≠ [])
    (hb : is_base64 ch = true) (hne : ch ≠ 61) :
    decodeLoop (pre ++ ch :: rest) n (k + 1) pre.length [x0, x1, x2] output =
      decodeLoop ((pre ++ [ch]) ++ rest) n k (pre ++ [ch]).length []
        (output ++ char_array_3 (b64index x0) (b64index x1) (b64index x2) (b64index ch)) := by
  have hpos : 0 < rest.length := List.length_pos.2 hrest
  rw [decodeLoop_take_fourth (pre ++ ch :: rest) n k pre.length ch x0 x1 x2 output
    (getD_append_head pre rest ch) hb hne (by omega)]
  simp

theorem decodeLoop_pad_cons (pre rest : Str) (n in_len : Nat) (buf output : List Nat) :
    decodeLoop (pre ++ 61 :: rest) n in_len pre.length buf output = (buf, output) :=
  decodeLoop_at_pad _ n in_len pre.length buf output (getD_append_head pre rest 61)

theorem decodeTail_two (c0 c1 : Nat) :
    decodeTail [c0, c1] = (char_array_3 (b64index c0) (b64index c1) 255 255).take 1 := by
  simp [decodeTail, b64index_zero]

theorem decodeTail_three (c0 c1 c2 : Nat) :
    decodeTail [c0, c1, c2] =
      (char_array_3 (b64index c0) (b64index c1) (b64index c2) 255).take 2 := by
  simp [decodeTail, b64index_zero]

theorem decodeLoop_encode (t : Nat) :
    ∀ (b : List Nat), (∀ x ∈ b, x < 256) → ∀ (pre : Str) (n in_len : Nat) (output : List Nat),
      n = pre.length + ((base64Encode b).length + 1) → (base64Encode b).length + 1 ≤ in_len →
      (decodeLoop (pre ++ (base64Encode b ++ [t])) n in_len pre.length [] output).2 ++
        decodeTail (decodeLoop (pre ++ (base64Encode b ++ [t])) n in_len pre.length [] output).1 =
        output ++ b
  | [], _, pre, n, in_len, output, hn, _ => by
    rw [decodeLoop_at_last _ n in_len pre.length [] output (by simpa [base64Encode] using hn.symm)]
    simp [decodeTail]
  | [a], hb, pre, n, in_len, output, hn, hlen => by
    have ha : a < 256 := hb a (by simp)
    obtain ⟨h0b, h0n, h0i⟩ := base64_chars_spec (a / 4) (by omega)
    obtain ⟨h1b, h1n, h1i⟩ := base64_chars_spec (a % 4 * 16) (by omega)
    simp only [base64Encode, List.length_cons, List.length_nil] at hn hlen
    obtain ⟨k, rfl⟩ : ∃ k, in_len = k + 2 := ⟨in_len - 2, by omega⟩
    simp only [base64Encode, List.cons_append, List.nil_append]
    rw [decodeLoop_take_cons pre _ _ n (k + 1) [] output (by simp; omega) (by simp) h0b h0n
        (by simp),
      decodeLoop_take_cons (pre ++ [_]) _ _ n k _ output (by simp; omega) (by simp) h1b h1n
        (by simp),
      decodeLoop_pad_cons]
    simp only [List.nil_append, List.cons_append, decodeTail_two, h0i, h1i,
      char_array_3_one a ha]
  | [a, b], hb, pre, n, in_len, output, hn, hlen => by
    have ha : a < 256 := hb a (by simp)
    have hb2 : b < 256 := hb b (by simp)
    obtain ⟨h0b, h0n, h0i⟩ := base64_chars_spec (a / 4) (by omega)
    obtain ⟨h1b, h1n, h1i⟩ := base64_chars_spec (a % 4 * 16 + b / 16) (by omega)
    obtain ⟨h2b, h2n, h2i⟩ := base64_chars_spec (b % 16 * 4) (by omega)
    simp only [base64Encode, List.length_cons, List.length_nil] at hn hlen
    obtain ⟨k, rfl⟩ : ∃ k, in_len = k + 3 := ⟨in_len - 3, by omega⟩
    simp only [base64Encode, List.cons_append, List.nil_append]
    rw [decodeLoop_take_cons pre _ _ n (k + 2) [] output (by simp; omega) (by simp) h0b h0n
        (by simp),
      decodeLoop_take_cons (pre ++ [_]) _ _ n (k + 1) _ output (by simp; omega) (by simp) h1b h1n
        (by simp),
      decodeLoop_take_cons (pre ++ [_] ++ [_]) _ _ n k _ output (by simp; omega) (by simp) h2b
        h2n (by simp),
      decodeLoop_pad_cons]
    simp only [List.nil_append, List.cons_append, decodeTail_three, h0i, h1i, h2i,
      char_array_3_two a b ha hb2]
  | a :: b :: c :: rest, hb, pre, n, in_len, output, hn, hlen => by
    have ha : a < 256 := hb a (by simp)
    have hb2 : b < 256 := hb b (by simp)
    have hc : c < 256 := hb c (by simp)
    have hrest : ∀ x ∈ rest, x < 256 := fun x hx => hb x (by simp [hx])
    obtain ⟨h0b, h0n, h0i⟩ := base64_chars_spec (a / 4) (by omega)
    obtain ⟨h1b, h1n, h1i⟩ := base64_chars_spec (a % 4 * 16 + b / 16) (by omega)
    obtain ⟨h2b, h2n, h2i⟩ := base64_chars_spec (b % 16 * 4 + c / 64) (by omega)
    obtain ⟨h3b, h3n, h3i⟩ := base64_chars_spec (c % 64) (by omega)
    simp only [base64Encode, List.length_cons] at hn hlen
    obtain ⟨k, rfl⟩ : ∃ k, in_len = k + 4 := ⟨in_len - 4, by omega⟩
    simp only [base64Encode, List.cons_append]
    rw [decodeLoop_take_cons pre _ _ n (k + 3) [] output (by simp; omega) (by simp) h0b h0n
        (by simp),
      decodeLoop_take_cons (pre ++ [_]) _ _ n (k + 2) _ output (by simp; omega) (by simp) h1b h1n
        (by simp),
      decodeLoop_take_cons (pre ++ [_] ++ [_]) _ _ n (k + 1) _ output (by simp; omega) (by simp)
        h2b h2n (by simp)]
    simp only [List.nil_append, List.cons_append]
    rw [decodeLoop_take_fourth_cons (pre ++ [_] ++ [_] ++ [_]) _ _ n k _ _ _ output
        (by simp; omega) (by simp) h3b h3n, h0i, h1i, h2i, h3i,
      char_array_3_group a b c ha hb2 hc,
      decodeLoop_encode t rest hrest _ n k _ (by simp; omega) (by omega)]
    simp

/-! ## `loadKoly` -/

theorem loadKoly_result (h : Decls) (sp : SchemeParsers) (xml : XmlLibrary) (m_reader : Reader)
    (koly : List Nat)
    (halloc : xml.newCharArray (be ((koly.drop h.fUDIFXMLLength).take 8)) = true) :
    (loadKoly h sp xml m_reader koly).result =
      discoverPartitions h sp (parsedDocument h xml m_reader koly)
        (xml.nodesetval (parsedDocument h xml m_reader koly)) := by
  simp [loadKoly, halloc, parsedDocument]

theorem loadKoly_bad_alloc (h : Decls) (sp : SchemeParsers) (xml : XmlLibrary)
    (m_reader : Reader) (koly : List Nat)
    (hfail : xml.newCharArray (be ((koly.drop h.fUDIFXMLLength).take 8)) = false) :
    (loadKoly h sp xml m_reader koly).reads = [] ∧
    (loadKoly h sp xml m_reader koly).result = .error .bad_alloc := by
  simp [loadKoly, hfail]

theorem loadKoly_ok (h : Decls) (sp : SchemeParsers) (xml : XmlLibrary) (m_reader : Reader)
    (koly : List Nat) (parts : List Partition)
    (hres : (loadKoly h sp xml m_reader koly).result = .ok parts) :
    discoverPartitions h sp (parsedDocument h xml m_reader koly)
      (xml.nodesetval (parsedDocument h xml m_reader koly)) = .ok parts := by
  cases halloc : xml.newCharArray (be ((koly.drop h.fUDIFXMLLength).take 8)) with
  | false =>
    rw [(loadKoly_bad_alloc h sp xml m_reader koly halloc).2] at hres
    simp at hres
  | true =>
    rw [loadKoly_result h sp xml m_reader koly halloc] at hres
    exact hres

theorem discoverPartitions_of_false (h : Decls) (sp : SchemeParsers) (doc : KolyXML)
    (nodes : List XmlNode) (parts : List Partition)
    (hres : loadPartitionElements h doc nodes [] = .ok (false, parts)) :
    discoverPartitions h sp doc (some nodes) = fallbackScheme sp doc := by
  simp [discoverPartitions, hres]

theorem discoverPartitions_of_true (h : Decls) (sp : SchemeParsers) (doc : KolyXML)
    (nodes : List XmlNode) (parts : List Partition)
    (hres : loadPartitionElements h doc nodes [] = .ok (true, parts)) :
    discoverPartitions h sp doc (some nodes) = .ok parts := by
  simp [discoverPartitions, hres]

theorem discoverPartitions_of_error (h : Decls) (sp : SchemeParsers) (doc : KolyXML)
    (nodes : List XmlNode) (e : Error)
    (hres : loadPartitionElements h doc nodes [] = .error e) :
    discoverPartitions h sp doc (some nodes) = .error e := by
  simp [discoverPartitions, hres]

theorem discoverPartitions_none (h : Decls) (sp : SchemeParsers) (doc : KolyXML) :
    discoverPartitions h sp doc none = fallbackScheme sp doc := by
  simp [discoverPartitions]

theorem fallbackScheme_apple (sp : SchemeParsers) (doc : KolyXML)
    (ha : sp.isAppleDisk (readerForKolyBlock doc (-1)) = true) :
    fallbackScheme sp doc =
      .ok (sp.applePartitions (readerForKolyBlock doc (-1)) (readerForKolyBlock doc 0)) := by
  simp [fallbackScheme, ha]

theorem fallbackScheme_gpt (sp : SchemeParsers) (doc : KolyXML)
    (ha : sp.isAppleDisk (readerForKolyBlock doc (-1)) = false)
    (hg : sp.isGPTDisk (readerForKolyBlock doc (-1)) = true) :
    fallbackScheme sp doc =
      .ok (sp.gptPartitions (readerForKolyBlock doc (-1)) (readerForKolyBlock doc 1)) := by
  simp [fallbackScheme, ha, hg]

theorem discoverPartitions_ok (h : Decls) (sp : SchemeParsers) (doc : KolyXML)
    (nodesetval : Option (List XmlNode)) (parts : List Partition)
    (hres : discoverPartitions h sp doc nodesetval = .ok parts) :
    (∃ nodes, nodesetval = some nodes ∧
        loadPartitionElements h doc nodes [] = .ok (true, parts)) ∨
      fallbackScheme sp doc = .ok parts := by
  cases nodesetval with
  | none => right; rw [discoverPartitions_none] at hres; exact hres
  | some nodes =>
    cases hl : loadPartitionElements h doc nodes [] with
    | error e => rw [discoverPartitions_of_error h sp doc nodes e hl] at hres; simp at hres
    | ok r =>
      obtain ⟨ok, ps⟩ := r
      cases ok with
      | false =>
        right
        rw [discoverPartitions_of_false h sp doc nodes ps hl] at hres
        exact hres
      | true =>
        left
        rw [discoverPartitions_of_true h sp doc nodes ps hl] at hres
        simp only [Except.ok.injEq] at hres
        subst hres
        exact ⟨nodes, rfl, hl⟩

theorem construct_ok {α : Type} (h : Decls) (m_reader : Reader) (k : List Nat → Run α) (a : α)
    (hres : (construct h m_reader k).result = .ok a) :
    (k (trailerBytes h m_reader)).result = .ok a := by
  unfold construct at hres
  simp only at hres
  split at hres
  · simp at hres
  · split at hres
    · simp at hres
    · split at hres
      · simp at hres
      · exact hres

theorem loadPartitionElements_no_string_value (h : Decls) (doc : KolyXML) (first : XmlNode)
    (rest : List XmlNode) (he : first.isElementNode = true) (hcf : first.CFName = none)
    (hname : first.Name = none) :
    loadPartitionElements h doc (first :: rest) [] =
      .error (.io_error "Invalid XML data, partition Name key not found") := by
  have hs : displayString first = none := by simp [displayString, hcf, hname]
  exact loadPartitionElementsFrom_no_string h doc 0 first rest [] he hs

theorem blkxData_empty (k : Int) :
    ∀ (l : List XmlNode),
      (∀ n ∈ l, n.someStringEquals k = true → n.Data = none ∨ n.Data = some []) →
      ((l.filter (fun n => n.someStringEquals k)).filterMap (fun n => n.Data)).head? = none ∨
      ((l.filter (fun n => n.someStringEquals k)).filterMap (fun n => n.Data)).head? =
        some [] := by
  intro l
  induction l with
  | nil => intro _; left; rfl
  | cons n l ih =>
    intro hall
    have ihl := ih (fun m hm => hall m (by simp [hm]))
    cases hid : n.someStringEquals k with
    | true =>
      rcases hall n (by simp) hid with hd | hd
      · simpa [List.filter_cons, hid, List.filterMap_cons, hd] using ihl
      · right
        simp [List.filter_cons, hid, List.filterMap_cons, hd]
    | false => simpa [List.filter_cons, hid] using ihl

theorem loadBLKXTableForPartition_none_of_no_data (doc : KolyXML) (k : Int)
    (hk : ∀ n ∈ doc.blkx, n.someStringEquals k = true → n.Data = none ∨ n.Data = some []) :
    loadBLKXTableForPartition doc k = none := by
  rcases blkxData_empty k doc.blkx hk with hd | hd
  · have : blkxData doc k = none := hd
    simp [loadBLKXTableForPartition, this]
  · have : blkxData doc k = some [] := hd
    simp [loadBLKXTableForPartition, this]

theorem sampleDoc_tables (i : Int) (table : List Nat)
    (hload : loadBLKXTableForPartition sampleDoc i = some table) : i = -1 ∨ i = 0 ∨ i = 1 := by
  by_contra hc
  have h1 : ¬ (-1 : Int) = i := fun e => hc (Or.inl e.symm)
  have h2 : ¬ (0 : Int) = i := fun e => hc (Or.inr (Or.inl e.symm))
  have h3 : ¬ (1 : Int) = i := fun e => hc (Or.inr (Or.inr e.symm))
  have hnone : loadBLKXTableForPartition sampleDoc i = none := by
    apply loadBLKXTableForPartition_none_of_no_data
    intro n hn hid
    simp only [sampleDoc, sampleNode, List.mem_cons, List.mem_singleton, List.not_mem_nil,
      or_false] at hn
    rcases hn with rfl | rfl | rfl <;>
      simp [XmlNode.someStringEquals, h1, h2, h3] at hid
  rw [hnone] at hload
  exact absurd hload (by simp)

/-! ## The claims -/

/-- C1 (the code departs from it): encoding then decoding does not give back the
bytes.  The standard encoding of "abc" is "YWJj"; `base64Decode` never takes the
last character of its input into a group, so it decodes "YWJj" to "ab". -/
theorem base64Decode_encode_abc :
    base64Encode (ascii "abc") = ascii "YWJj" ∧
    base64Decode (base64Encode (ascii "abc")) [] = (true, ascii "ab") := by
  decide

/-- C2 (the code departs from it): inserting a character that is neither in the
alphabet nor `=` changes the result.  A line feed after "QUJD" turns the output
"AB" into "ABC", and a blank before the `=` of "QQ==QUJDx" makes the decoder run
past the pad and give four bytes where it gave one. -/
theorem base64Decode_noise_changes_output :
    is_base64 10 = false ∧ is_base64 32 = false ∧
    base64Decode (ascii "QUJD") [] = (true, ascii "AB") ∧
    base64Decode (ascii "QUJD" ++ [10]) [] = (true, ascii "ABC") ∧
    base64Decode (ascii "QQ==QUJDx") [] = (true, ascii "A") ∧
    base64Decode (ascii "QQ ==QUJDx") [] = (true, [65, 4, 20, 36]) := by
  decide

/-- C3 (the code departs from it): the decoder does not stop at the first `=`
when noise comes right before it.  With `p = "QQ "` and `r = "QUJDx"` the input
`p ++ "=" ++ r` gives four bytes, `p ++ "="` gives one. -/
theorem base64Decode_runs_past_pad :
    61 ∉ ascii "QQ " ∧
    base64Decode (ascii "QQ " ++ ascii "=") [] = (true, ascii "A") ∧
    base64Decode (ascii "QQ " ++ ascii "=" ++ ascii "QUJDx") [] = (true, [65, 4, 20, 36]) := by
  decide

/-- C4: for a name `n` without `(`, a type `t` without `:` and any id text `r`,
`parseNameAndType` applied to `n ++ " (" ++ t ++ " : " ++ r ++ ")"` returns true
with name `n` and type `t`, whatever the two output strings held before. -/
theorem parseNameAndType_descriptor (n t r name type : Str) (hn : 40 ∉ n) (ht : 58 ∉ t)
    (hlen : (n ++ ascii " (" ++ t ++ ascii " : " ++ r ++ ascii ")").length < 2 ^ 64) :
    parseNameAndType (n ++ ascii " (" ++ t ++ ascii " : " ++ r ++ ascii ")") name type =
      (true, n, t) :=
  parseNameAndType_descriptor_aux n t r name type hn ht hlen

/-- C4 at "Apple (Apple_partition_map : 1)": name "Apple", type "Apple_partition_map". -/
theorem parseNameAndType_descriptor_witness :
    parseNameAndType (ascii "Apple" ++ ascii " (" ++ ascii "Apple_partition_map" ++ ascii " : " ++
        ascii "1" ++ ascii ")") [] [] = (true, ascii "Apple", ascii "Apple_partition_map") ∧
    ascii "Apple" ++ ascii " (" ++ ascii "Apple_partition_map" ++ ascii " : " ++ ascii "1" ++
        ascii ")" = ascii "Apple (Apple_partition_map : 1)" :=
  ⟨parseNameAndType_descriptor (ascii "Apple") (ascii "Apple_partition_map") (ascii "1") [] []
    (by decide) (by decide) (by decide), by decide⟩

/-- C5: `parseNameAndType` returns false exactly when the input has no `(`, or has
no `:` after its first `(`; on every other input it returns true. -/
theorem parseNameAndType_false_iff (s name type : Str) (hlen : s.length < 2 ^ 64) :
    ((parseNameAndType s name type).1 = false ↔
      (40 ∉ s ∨ 58 ∉ s.drop (s.indexOf 40 + 1))) ∧
    ((parseNameAndType s name type).1 = true ↔
      (40 ∈ s ∧ 58 ∈ s.drop (s.indexOf 40 + 1))) := by
  have h := parseNameAndType_fst s name type hlen
  refine ⟨h, ?_⟩
  constructor
  · intro ht
    by_contra hc
    have : (parseNameAndType s name type).1 = false := h.2 (by tauto)
    rw [ht] at this
    exact absurd this (by decide)
  · intro hm
    cases hb : (parseNameAndType s name type).1 with
    | true => rfl
    | false => rcases h.1 hb with h1 | h1 <;> tauto

/-- C5 at "Apple (Apple_partition_map", which has a `(` and no `:` after it. -/
theorem parseNameAndType_false_iff_witness :
    ((parseNameAndType (ascii "Apple (Apple_partition_map") [] []).1 = false ↔
      (40 ∉ ascii "Apple (Apple_partition_map" ∨
        58 ∉ (ascii "Apple (Apple_partition_map").drop
          ((ascii "Apple (Apple_partition_map").indexOf 40 + 1))) ∧
    (parseNameAndType (ascii "Apple (Apple_partition_map") [] []).1 = false :=
  ⟨(parseNameAndType_false_iff (ascii "Apple (Apple_partition_map") [] [] (by decide)).1,
    by decide⟩

/-- C6 (the code departs from it): when `(` is the first character the count
`paren - 1` wraps to the largest `size_t`, and name becomes the whole input where
the text before the `(` is empty; and the character dropped before a later `(` is
dropped whether or not it is a blank, so "Apple(x : 1)" gives the name "Appl". -/
theorem parseNameAndType_name_leading_paren :
    parseNameAndType (ascii "(x : 1)") [] [] = (true, ascii "(x : 1)", ascii "x") ∧
    (ascii "(x : 1)").take ((ascii "(x : 1)").indexOf 40) = [] ∧
    parseNameAndType (ascii "Apple(x : 1)") [] [] = (true, ascii "Appl", ascii "x") ∧
    (ascii "Apple(x : 1)").take ((ascii "Apple(x : 1)").indexOf 40) = ascii "Apple" := by
  decide

/-- C7: the constructor reaches `loadKoly` exactly when the length is at least 512,
the trailer read at `length - 512` returns `sizeof(udif)` and the big-endian
signature field is `UDIF_SIGNATURE`.  Otherwise it throws an `io_error` having made
no read but, at most, the trailer read, whatever `loadKoly` would have done. -/
theorem construct_trailer_validation (h : Decls) (m_reader : Reader) :
    ((512 ≤ m_reader.length ∧
        m_reader.readReturn h.sizeofUDIF (m_reader.length - 512) = (h.sizeofUDIF : Int) ∧
        be (((trailerBytes h m_reader).drop h.fUDIFSignature).take 4) = h.UDIF_SIGNATURE) →
      ∀ (α : Type) (loadKoly : List Nat → Run α),
        construct h m_reader loadKoly =
          ⟨(h.sizeofUDIF, m_reader.length - 512) :: (loadKoly (trailerBytes h m_reader)).reads,
            (loadKoly (trailerBytes h m_reader)).result⟩) ∧
    (¬ (512 ≤ m_reader.length ∧
        m_reader.readReturn h.sizeofUDIF (m_reader.length - 512) = (h.sizeofUDIF : Int) ∧
        be (((trailerBytes h m_reader).drop h.fUDIFSignature).take 4) = h.UDIF_SIGNATURE) →
      ∃ what reads, (reads = [] ∨ reads = [(h.sizeofUDIF, m_reader.length - 512)]) ∧
        ∀ (α : Type) (loadKoly : List Nat → Run α),
          construct h m_reader loadKoly = ⟨reads, .error (.io_error what)⟩) := by
  constructor
  · rintro ⟨hlen, hread, hsig⟩ α loadKoly
    have hlen2 : ¬ m_reader.length < 512 := by omega
    simp [construct, hlen2, hread, hsig]
  · intro hc
    by_cases hlen : m_reader.length < 512
    · exact ⟨"File to small to be a DMG", [], Or.inl rfl,
        fun α loadKoly => by simp [construct, hlen]⟩
    · by_cases hread :
          m_reader.readReturn h.sizeofUDIF (m_reader.length - 512) = (h.sizeofUDIF : Int)
      · have hsig : ¬ be (((trailerBytes h m_reader).drop h.fUDIFSignature).take 4) =
            h.UDIF_SIGNATURE := fun hs => hc ⟨by omega, hread, hs⟩
        exact ⟨"Invalid KOLY block signature", _, Or.inr rfl,
          fun α loadKoly => by simp [construct, hlen, hread, hsig]⟩
      · exact ⟨"Cannot read the KOLY block", _, Or.inr rfl,
          fun α loadKoly => by simp [construct, hlen, hread]⟩

set_option maxRecDepth 100000 in
/-- C7 on a 515-byte source whose last 512 bytes start with "koly": `loadKoly` runs,
after the one trailer read at offset 3. -/
theorem construct_trailer_validation_witness :
    construct udif (Reader.ofBytes (sampleImage [1, 2, 3] (ascii "koly")))
      (fun _ => (⟨[], .ok ()⟩ : Run Unit)) = ⟨[(512, 3)], .ok ()⟩ :=
  (construct_trailer_validation udif (Reader.ofBytes (sampleImage [1, 2, 3] (ascii "koly")))).1
    ⟨by decide, by decide, by decide⟩ Unit (fun _ => ⟨[], .ok ()⟩)

/-- C8: `isDMG` returns true when the length is at least 512 and the four bytes read
at `length - 512` are the big-endian magic.  It returns false when the source is
shorter than 512 bytes (the offset wraps to at least `2^64 - 512`, past the end,
where a byte source stores nothing), when the four bytes read differ from the
magic, and when the read fails or stores nothing.  It is a total function: no case
raises. -/
theorem isDMG_probe (h : Decls) (reader : Reader) (hlen : reader.length < 2 ^ 64)
    (hsig : 0 < h.UDIF_SIGNATURE) (hsig2 : h.UDIF_SIGNATURE < 2 ^ 32) :
    (512 ≤ reader.length →
      reader.read 4 (reader.length - 512) = some (beBytes 4 h.UDIF_SIGNATURE) →
      isDMG h reader = true) ∧
    (reader.length < 512 → reader.NoDataPastEnd →
      reader.length ≤ sizeSub reader.length 512 ∧ isDMG h reader = false) ∧
    (∀ d, 512 ≤ reader.length → reader.read 4 (reader.length - 512) = some d →
      d.length = 4 → (∀ b ∈ d, b < 256) → d ≠ beBytes 4 h.UDIF_SIGNATURE →
      isDMG h reader = false) ∧
    ((reader.read 4 (sizeSub reader.length 512) = none ∨
        reader.read 4 (sizeSub reader.length 512) = some []) →
      isDMG h reader = false) := by
  refine ⟨?_, ?_, ?_, ?_⟩
  · intro h512 hr
    have ho : sizeSub reader.length 512 = reader.length - 512 := sizeSub_of_le h512 hlen
    rw [← ho] at hr
    rw [isDMG_four_read h reader _ hr (beBytes_length 4 _),
      be_beBytes_of_lt 4 _ (by norm_num; omega)]
    simp
  · intro hshort hpast
    have ho := sizeSub_wraps hshort
    have hle : reader.length ≤ sizeSub reader.length 512 := by rw [ho]; omega
    exact ⟨hle, isDMG_nothing_read h reader hsig (hpast 4 _ hle)⟩
  · intro d h512 hr hd hb hne
    have ho : sizeSub reader.length 512 = reader.length - 512 := sizeSub_of_le h512 hlen
    rw [← ho] at hr
    rw [isDMG_four_read h reader d hr hd]
    have : be d ≠ h.UDIF_SIGNATURE := by
      intro he
      apply hne
      rw [← he, beBytes_four_of_be d hd hb]
    simp [this]
  · exact isDMG_nothing_read h reader hsig

set_option maxRecDepth 100000 in
/-- C8 on a 515-byte source whose last 512 bytes start with "koly", and on the
4-byte source "koly". -/
theorem isDMG_probe_witness :
    isDMG udif (Reader.ofBytes (sampleImage [1, 2, 3] (ascii "koly"))) = true ∧
    isDMG udif (Reader.ofBytes (ascii "koly")) = false :=
  ⟨(isDMG_probe udif (Reader.ofBytes (sampleImage [1, 2, 3] (ascii "koly")))
      (by decide) (by decide) (by decide)).1 (by decide) (by decide),
   ((isDMG_probe udif (Reader.ofBytes (ascii "koly")) (by decide) (by decide) (by decide)).2.1
      (by decide) (ofBytes_noDataPastEnd _)).2⟩

/-- C12: from an empty list `loadPartitionElements` returns false exactly when the
first element entry has a display string that fails `parseNameAndType`, and the
list it leaves is then empty.  When `loadKoly` takes the fallback path, by a false
return or for want of a node set, the final list is the list of the scheme parser
that recognises the reader over block `-1`. -/
theorem loadPartitionElements_false_iff (h : Decls) (sp : SchemeParsers) (doc : KolyXML)
    (nodes : List XmlNode) :
    ((∃ parts, loadPartitionElements h doc nodes [] = .ok (false, parts)) ↔
      ∃ node s, nodes.find? (fun n => n.isElementNode) = some node ∧
        displayString node = some s ∧ (parseNameAndType s [] []).1 = false) ∧
    (∀ parts, loadPartitionElements h doc nodes [] = .ok (false, parts) → parts = []) ∧
    (∀ parts, loadPartitionElements h doc nodes [] = .ok (false, parts) →
      discoverPartitions h sp doc (some nodes) = fallbackScheme sp doc) ∧
    discoverPartitions h sp doc none = fallbackScheme sp doc ∧
    (sp.isAppleDisk (readerForKolyBlock doc (-1)) = true →
      fallbackScheme sp doc =
        .ok (sp.applePartitions (readerForKolyBlock doc (-1)) (readerForKolyBlock doc 0))) ∧
    (sp.isAppleDisk (readerForKolyBlock doc (-1)) = false →
      sp.isGPTDisk (readerForKolyBlock doc (-1)) = true →
      fallbackScheme sp doc =
        .ok (sp.gptPartitions (readerForKolyBlock doc (-1)) (readerForKolyBlock doc 1))) := by
  have hiff := loadPartitionElementsFrom_false_iff h doc nodes 0
  refine ⟨?_, ?_, ?_, discoverPartitions_none h sp doc, fallbackScheme_apple sp doc,
    fallbackScheme_gpt sp doc⟩
  · constructor
    · rintro ⟨parts, hres⟩
      exact ((hiff parts).1 hres).2
    · intro hex
      exact ⟨[], (hiff []).2 ⟨rfl, hex⟩⟩
  · intro parts hres
    exact ((hiff parts).1 hres).1
  · intro parts hres
    exact discoverPartitions_of_false h sp doc nodes parts hres

/-- C12 on the document whose entry has no name, with a parser that recognises an
Apple Partition Map: the final list is the parser's one partition. -/
theorem loadPartitionElements_false_iff_witness :
    loadPartitionElements udif noNameDoc (blkxNodes noNameDoc) [] = .ok (false, []) ∧
    discoverPartitions udif appleScheme noNameDoc (some (blkxNodes noNameDoc)) =
      .ok [⟨ascii "disk image", ascii "Apple_HFS", some 20480, some 40960⟩] :=
  ⟨by decide,
    ((loadPartitionElements_false_iff udif appleScheme noNameDoc (blkxNodes noNameDoc)).2.2.1 []
      (by decide)).trans
      ((loadPartitionElements_false_iff udif appleScheme noNameDoc
        (blkxNodes noNameDoc)).2.2.2.2.1 (by decide))⟩

/-- C13 fails on the document whose first `blkx` entry, of ID `-1`, has neither
name key and whose second entry, of ID `0`, is "System": the query admits the
second entry only, the metadata path succeeds on it, and `loadKoly` ends with its
partition where the scheme probing would have given the parser's list. -/
theorem loadKoly_nameless_first_entry_counterexample :
    ¬ (∀ (first : XmlNode) (rest : List XmlNode),
        namelessFirstDoc.blkx = first :: rest →
        first.CFName = some [] → first.Name = some [] →
        (loadKoly udif appleScheme (xmlLibraryFor namelessFirstDoc) (Reader.ofBytes [])
          []).result = fallbackScheme appleScheme namelessFirstDoc) := by
  intro hall
  have h := hall
    ⟨true, -1, some [], some [], some (ascii "bWlzaAAAAAEAAAAAAAAAAAAAAAAAAAEs" ++ [10]), []⟩
    [sampleNode 0 "System (Apple_HFS : 0)" "bWlzaAAAAAEAAAAAAAAAAAAAAAAAAABk"] rfl rfl rfl
  have hres : (loadKoly udif appleScheme (xmlLibraryFor namelessFirstDoc) (Reader.ofBytes [])
      []).result = .ok [⟨ascii "System", ascii "Apple_HFS", some 0, some 51200⟩] := by decide
  have hfb : fallbackScheme appleScheme namelessFirstDoc =
      .ok [⟨ascii "disk image", ascii "Apple_HFS", some 20480, some 40960⟩] := by decide
  rw [hres, hfb] at h
  revert h
  decide

/-- C13 as amended: when the buffer for the blob is allocated and the first entry
of the node set of the query has neither name key, so that both name queries give
the empty string, `loadPartitionElements` returns false and `loadKoly` goes on to
the scheme probing: its result is the list of the Apple parser when `isAppleDisk`
recognises the reader over block `-1`, else the list of the GPT parser when
`isGPTDisk` does. -/
theorem loadKoly_falls_back_without_names (h : Decls) (sp : SchemeParsers) (xml : XmlLibrary)
    (m_reader : Reader) (koly : List Nat) (first : XmlNode) (rest : List XmlNode)
    (halloc : xml.newCharArray (be ((koly.drop h.fUDIFXMLLength).take 8)) = true)
    (hnodes : xml.nodesetval (parsedDocument h xml m_reader koly) = some (first :: rest))
    (he : first.isElementNode = true) (hcf : first.CFName = some [])
    (_hname : first.Name = some []) :
    loadPartitionElements h (parsedDocument h xml m_reader koly) (first :: rest) [] =
      .ok (false, []) ∧
    (loadKoly h sp xml m_reader koly).result =
      fallbackScheme sp (parsedDocument h xml m_reader koly) ∧
    (sp.isAppleDisk (readerForKolyBlock (parsedDocument h xml m_reader koly) (-1)) = true →
      (loadKoly h sp xml m_reader koly).result =
        .ok (sp.applePartitions (readerForKolyBlock (parsedDocument h xml m_reader koly) (-1))
          (readerForKolyBlock (parsedDocument h xml m_reader koly) 0))) ∧
    (sp.isAppleDisk (readerForKolyBlock (parsedDocument h xml m_reader koly) (-1)) = false →
      sp.isGPTDisk (readerForKolyBlock (parsedDocument h xml m_reader koly) (-1)) = true →
      (loadKoly h sp xml m_reader koly).result =
        .ok (sp.gptPartitions (readerForKolyBlock (parsedDocument h xml m_reader koly) (-1))
          (readerForKolyBlock (parsedDocument h xml m_reader koly) 1))) := by
  have hs : displayString first = some [] := by simp [displayString, hcf]
  have hparse : (parseNameAndType [] [] []).1 = false := by decide
  have hfalse : loadPartitionElements h (parsedDocument h xml m_reader koly) (first :: rest) [] =
      .ok (false, []) := by
    unfold loadPartitionElements
    rw [loadPartitionElementsFrom_cons_partFor h _ 0 first rest [] [] he hs, hparse]
    rfl
  have hfb : (loadKoly h sp xml m_reader koly).result =
      fallbackScheme sp (parsedDocument h xml m_reader koly) := by
    rw [loadKoly_result h sp xml m_reader koly halloc, hnodes]
    exact discoverPartitions_of_false h sp _ _ [] hfalse
  refine ⟨hfalse, hfb, ?_, ?_⟩
  · intro ha
    rw [hfb, fallbackScheme_apple sp _ ha]
  · intro ha hg
    rw [hfb, fallbackScheme_gpt sp _ ha hg]

/-- C13 as amended, on the document whose one entry with an ID `≥ 0` has neither
name key, with a parser that recognises an Apple Partition Map: `loadKoly` ends
with the parser's list. -/
theorem loadKoly_falls_back_without_names_witness :
    (loadKoly udif appleScheme (xmlLibraryFor noNameDoc) (Reader.ofBytes []) []).result =
      .ok [⟨ascii "disk image", ascii "Apple_HFS", some 20480, some 40960⟩] :=
  (loadKoly_falls_back_without_names udif appleScheme (xmlLibraryFor noNameDoc)
    (Reader.ofBytes []) []
    ⟨true, 0, some [], some [], some (ascii "bWlzaAAAAAEAAAAAAAAAAAAAAAAAAABk" ++ [10]), []⟩ []
    (by decide) (by decide) rfl rfl rfl).2.2.1 (by decide)

/-- C14 (the code departs from it): the document has one entry, of ID `7`, whose
"Name" value "0" comes after the ID value.  No entry has the ID `0`, yet
`loadBLKXTableForPartition(0)` returns the table of that entry, because the
predicate of its query accepts every `string` after the "ID" key; the same entry
answers index `7` as well. -/
theorem loadBLKXTableForPartition_later_string :
    (∀ n ∈ numericNameDoc.blkx, n.ID ≠ 0) ∧
    loadBLKXTableForPartition numericNameDoc 0 = some (sampleTable 0 100) ∧
    loadBLKXTableForPartition numericNameDoc 7 = some (sampleTable 0 100) := by
  decide

/-- C15 fails on a valid image whose metadata document has no entry with an ID
`≥ 0`: the node set is empty, `loadPartitionElements` returns true, no fallback is
tried and the construction completes with an empty partition list. -/
theorem newDMGDisk_empty_list_counterexample :
    ¬ (∀ parts,
        (newDMGDisk udif noScheme (xmlLibraryFor wholeDiskDoc)
          (Reader.ofBytes (sampleImage [1, 2, 3] (ascii "koly")))).result = .ok parts →
        parts ≠ []) := by
  intro hall
  have hres : (newDMGDisk udif noScheme (xmlLibraryFor wholeDiskDoc)
      (Reader.ofBytes (sampleImage [1, 2, 3] (ascii "koly")))).result = .ok [] := by
    have hv : (construct udif (Reader.ofBytes (sampleImage [1, 2, 3] (ascii "koly")))
        (loadKoly udif noScheme (xmlLibraryFor wholeDiskDoc)
          (Reader.ofBytes (sampleImage [1, 2, 3] (ascii "koly"))))).result = .ok [] := by
      set_option maxRecDepth 100000 in decide
    exact hv
  exact hall [] hres rfl

/-- C15 as amended: when the construction completes without raising, its partition
list is either the list of the metadata path, which holds one partition for each
element entry of the node set and so is empty when the node set has no element
entry, or the list the scheme parser of the fallback path returned. -/
theorem newDMGDisk_partitions (h : Decls) (sp : SchemeParsers) (xml : XmlLibrary)
    (m_reader : Reader) (parts : List Partition)
    (hres : (newDMGDisk h sp xml m_reader).result = .ok parts) :
    (∃ nodes,
        xml.nodesetval (parsedDocument h xml m_reader (trailerBytes h m_reader)) = some nodes ∧
        loadPartitionElements h (parsedDocument h xml m_reader (trailerBytes h m_reader)) nodes
          [] = .ok (true, parts) ∧
        parts.length = (nodes.filter (fun n => n.isElementNode)).length) ∨
    fallbackScheme sp (parsedDocument h xml m_reader (trailerBytes h m_reader)) = .ok parts := by
  have hk := loadKoly_ok h sp xml m_reader _ parts
    (construct_ok h m_reader (loadKoly h sp xml m_reader) parts hres)
  rcases discoverPartitions_ok h sp _ _ parts hk with ⟨nodes, hn, hl⟩ | hf
  · left
    refine ⟨nodes, hn, hl, ?_⟩
    have := loadPartitionElementsFrom_length h _ nodes 0 [] parts hl
    simpa using this
  · right; exact hf

set_option maxRecDepth 100000 in
/-- C15 as amended, on a valid image with the sample document: the metadata path
gives its two partitions. -/
theorem newDMGDisk_partitions_witness :
    (∃ nodes,
        (xmlLibraryFor sampleDoc).nodesetval (parsedDocument udif (xmlLibraryFor sampleDoc)
          (Reader.ofBytes (sampleImage [1, 2, 3] (ascii "koly")))
          (trailerBytes udif (Reader.ofBytes (sampleImage [1, 2, 3] (ascii "koly"))))) =
            some nodes ∧
        loadPartitionElements udif (parsedDocument udif (xmlLibraryFor sampleDoc)
          (Reader.ofBytes (sampleImage [1, 2, 3] (ascii "koly")))
          (trailerBytes udif (Reader.ofBytes (sampleImage [1, 2, 3] (ascii "koly"))))) nodes
          [] = .ok (true, [⟨ascii "System", ascii "Apple_HFS", some 0, some 51200⟩,
            ⟨ascii "Data", ascii "Apple_HFS", some 51200, some 102400⟩]) ∧
        [(⟨ascii "System", ascii "Apple_HFS", some 0, some 51200⟩ : Partition),
            ⟨ascii "Data", ascii "Apple_HFS", some 51200, some 102400⟩].length =
          (nodes.filter (fun n => n.isElementNode)).length) ∨
    fallbackScheme noScheme (parsedDocument udif (xmlLibraryFor sampleDoc)
        (Reader.ofBytes (sampleImage [1, 2, 3] (ascii "koly")))
        (trailerBytes udif (Reader.ofBytes (sampleImage [1, 2, 3] (ascii "koly"))))) =
      .ok [⟨ascii "System", ascii "Apple_HFS", some 0, some 51200⟩,
        ⟨ascii "Data", ascii "Apple_HFS", some 51200, some 102400⟩] :=
  newDMGDisk_partitions udif noScheme (xmlLibraryFor sampleDoc)
    (Reader.ofBytes (sampleImage [1, 2, 3] (ascii "koly")))
    [⟨ascii "System", ascii "Apple_HFS", some 0, some 51200⟩,
      ⟨ascii "Data", ascii "Apple_HFS", some 51200, some 102400⟩] (by decide)

/-- C16 (the code departs from it): when every block table with an ID `≥ -1`
starts at another offset than the partition, the loop of `readerForPartition` is
still running after any number of turns up to `2^31 + 1`, the whole range of its
`int` counter: the call does not return, with a reader or with `nullptr`. -/
theorem readerForPartition_never_returns (h : Decls) (doc : KolyXML) (parts : List Partition)
    (index offset : Nat)
    (hoff : (parts[index]?).bind (fun part => part.offset) = some offset)
    (hno : ∀ (i : Int) (table : List Nat), -1 ≤ i →
      loadBLKXTableForPartition doc i = some table →
      ∃ first, sectorsToBytes table h.firstSectorNumber = some first ∧ first ≠ offset) :
    ∀ turns, turns ≤ 2 ^ 31 + 1 → readerForPartition h doc parts index turns = .inLoop := by
  intro turns hturns
  apply readerForPartitionFrom_stays_inLoop h doc parts index offset hoff hno turns (-1)
    (by omega)
  have : (turns : Int) ≤ 2 ^ 31 + 1 := by exact_mod_cast hturns
  omega

/-- C16 on the sample document with a partition recorded at byte 20480, where no
table starts: after a million turns the call is still in its loop. -/
theorem readerForPartition_never_returns_witness :
    readerForPartition udif sampleDoc
      [⟨ascii "disk image", ascii "Apple_HFS", some 20480, some 40960⟩] 0 1000000 = .inLoop :=
  readerForPartition_never_returns udif sampleDoc
    [⟨ascii "disk image", ascii "Apple_HFS", some 20480, some 40960⟩] 0 20480 (by decide)
    (by
      intro i table _ hload
      rcases sampleDoc_tables i table hload with rfl | rfl | rfl
      · have ht : loadBLKXTableForPartition sampleDoc (-1) = some (sampleTable 0 300) := by decide
        rw [ht, Option.some.injEq] at hload
        subst hload
        exact ⟨0, by decide, by decide⟩
      · have ht : loadBLKXTableForPartition sampleDoc 0 = some (sampleTable 0 100) := by decide
        rw [ht, Option.some.injEq] at hload
        subst hload
        exact ⟨0, by decide, by decide⟩
      · have ht : loadBLKXTableForPartition sampleDoc 1 = some (sampleTable 100 200) := by decide
        rw [ht, Option.some.injEq] at hload
        subst hload
        exact ⟨51200, by decide, by decide⟩)
    1000000 (by norm_num)

/-- C18: the result of `base64Decode` does not depend on the last character of its
input: `s ++ [c]` and `s ++ [d]` give the same return value and the same bytes. -/
theorem base64Decode_ignores_last_character (s : Str) (c d : Nat) :
    base64Decode (s ++ [c]) [] = base64Decode (s ++ [d]) [] :=
  base64Decode_last_irrelevant s c d []

/-- C19: for a byte sequence `b` and any one character `t`, decoding the padded
encoding of `b` followed by `t` into an empty vector gives `b`, and returns true
exactly when `b` is not empty. -/
theorem base64Decode_encode_then_character (b : List Nat) (t : Nat)
    (hb : ∀ x ∈ b, x < 256) :
    base64Decode (base64Encode b ++ [t]) [] = (decide (b ≠ []), b) := by
  have h := decodeLoop_encode t b hb [] ((base64Encode b ++ [t]).length)
    ((base64Encode b ++ [t]).length) [] (by simp) (by simp)
  simp only [List.nil_append, List.length_nil] at h
  simp only [base64Decode, h, Prod.mk.injEq, and_true]
  cases b with
  | nil => rfl
  | cons a l => simp

/-- C19 on the bytes "abc" followed by a line feed, and on no bytes followed by a line feed. -/
theorem base64Decode_encode_then_character_witness :
    base64Decode (base64Encode (ascii "abc") ++ [10]) [] = (true, ascii "abc") ∧
    base64Decode (base64Encode [] ++ [10]) [] = (false, []) :=
  ⟨base64Decode_encode_then_character (ascii "abc") 10 (by decide),
    base64Decode_encode_then_character [] 10 (by decide)⟩

/-- C20 (the code departs from it): for the "Data" text `=` the decoder returns
false with no byte, yet `loadBLKXTableForPartition` hands out a table of zero bytes,
and `loadPartitionElements` takes the offset and the size of its partition from
past the end of that table. -/
theorem loadBLKXTableForPartition_zero_length_table :
    base64Decode (ascii "=") [] = (false, []) ∧
    loadBLKXTableForPartition padOnlyDoc 0 = some [] ∧
    partGeometry udif (loadBLKXTableForPartition padOnlyDoc 0) = (none, none) ∧
    loadPartitionElements udif padOnlyDoc (blkxNodes padOnlyDoc) [] =
      .ok (true, [⟨ascii "System", ascii "Apple_HFS", none, none⟩]) := by
  decide

end DMGDisk
